import Mathlib

/-!
Verification development for the bin-packing instance generator
(`jumanji/environments/combinatorial/binpack/instance_generator.py`).

The Python code is shallowly embedded:
* jax arrays of length `max_num_items` become functions `Nat → _` together
  with an explicit length; all array reads/writes performed by the source are
  at indices below that length.
* all coordinates are natural numbers (the container's min corner is the
  origin and every bound produced by the algorithm stays inside the
  container), and `jnp.int32(a / b)` on the non-negative operands occurring
  here is natural floor division;
* the jax PRNG is replaced by a concrete deterministic key-splitting scheme
  on `Nat`; every invariant below is proved for all key values, hence for
  every realisable stream of random draws;
* `jax.lax.while_loop` is modelled with explicit fuel (the Python loop has
  no iteration bound; every theorem about the loop holds for every fuel,
  in particular for every terminating execution).
-/

/-- Split axis: the source dispatches on an integer in {0,1,2} over the three
axis-specific functions (0 → x, 1 → y, 2 → z). -/
inductive Axis where
  | x : Axis
  | y : Axis
  | z : Axis
deriving DecidableEq

/-- Modelled from the spec (the `Space` type lives in `space.py`, which is not
part of the sources here): an axis-aligned box with six integer bounds.  All
coordinates produced by the generator are non-negative, so `Nat` is used. -/
structure Space where
  x1 : Nat
  x2 : Nat
  y1 : Nat
  y2 : Nat
  z1 : Nat
  z2 : Nat
deriving DecidableEq

/-- Modelled from the spec: an `Item` is three extents. -/
structure Item where
  x_len : Nat
  y_len : Nat
  z_len : Nat
deriving DecidableEq

/-- Modelled from the spec: a `Location` is an integer placement origin. -/
structure Location where
  x : Nat
  y : Nat
  z : Nat
deriving DecidableEq

/-- Lower bound of a space along an axis (`get_axis_value(axis, 1)`). -/
def Space.lo (s : Space) (a : Axis) : Nat :=
  match a with
  | .x => s.x1
  | .y => s.y1
  | .z => s.z1

/-- Upper bound of a space along an axis (`get_axis_value(axis, 2)`). -/
def Space.hi (s : Space) (a : Axis) : Nat :=
  match a with
  | .x => s.x2
  | .y => s.y2
  | .z => s.z2

/-- Overwrite the lower bound along an axis (`set_axis_value(axis, 1, v)`). -/
def Space.withLo (s : Space) (a : Axis) (v : Nat) : Space :=
  match a with
  | .x => { s with x1 := v }
  | .y => { s with y1 := v }
  | .z => { s with z1 := v }

/-- Overwrite the upper bound along an axis (`set_axis_value(axis, 2, v)`). -/
def Space.withHi (s : Space) (a : Axis) (v : Nat) : Space :=
  match a with
  | .x => { s with x2 := v }
  | .y => { s with y2 := v }
  | .z => { s with z2 := v }

/-- Modelled from the spec: `Space.is_empty` holds when some axis interval has
zero length (with `Nat` bounds, length `hi - lo` is zero iff `hi ≤ lo`). -/
def Space.isEmpty (s : Space) : Bool :=
  (s.x2 ≤ s.x1 : Bool) || (s.y2 ≤ s.y1 : Bool) || (s.z2 ≤ s.z1 : Bool)

/-- Volume of a space. -/
def Space.volume (s : Space) : Nat :=
  (s.x2 - s.x1) * (s.y2 - s.y1) * (s.z2 - s.z1)

/-- Modelled from the spec: `item_from_space` takes interval lengths. -/
def item_from_space (s : Space) : Item :=
  { x_len := s.x2 - s.x1, y_len := s.y2 - s.y1, z_len := s.z2 - s.z1 }

/-- Modelled from the spec: `location_from_space` takes the min corner. -/
def location_from_space (s : Space) : Location :=
  { x := s.x1, y := s.y1, z := s.z1 }

/-- Modelled from the spec: `empty_ems` is a degenerate space at the origin. -/
def empty_ems : Space :=
  { x1 := 0, x2 := 0, y1 := 0, y2 := 0, z1 := 0, z2 := 0 }

/-- Extent of an item along an axis (`getattr(items, axis + "_len")`). -/
def Item.lenAlong (it : Item) (a : Axis) : Nat :=
  match a with
  | .x => it.x_len
  | .y => it.y_len
  | .z => it.z_len

/-- Volume of an item. -/
def Item.volume (it : Item) : Nat :=
  it.x_len * it.y_len * it.z_len

/-- Two boxes do not overlap: on some axis their interiors are separated. -/
def Space.DisjointSp (s t : Space) : Prop :=
  min s.x2 t.x2 ≤ max s.x1 t.x1 ∨ min s.y2 t.y2 ≤ max s.y1 t.y1 ∨
    min s.z2 t.z2 ≤ max s.z1 t.z1

instance (s t : Space) : Decidable (Space.DisjointSp s t) := by
  unfold Space.DisjointSp
  infer_instance

/-- `s` is a well-formed sub-box of `t` (each interval is ordered and nested). -/
def Space.insideOf (s t : Space) : Prop :=
  (t.x1 ≤ s.x1 ∧ s.x1 ≤ s.x2 ∧ s.x2 ≤ t.x2) ∧
    (t.y1 ≤ s.y1 ∧ s.y1 ≤ s.y2 ∧ s.y2 ≤ t.y2) ∧
    (t.z1 ≤ s.z1 ∧ s.z1 ≤ s.z2 ∧ s.z2 ≤ t.z2)

instance (s t : Space) : Decidable (Space.insideOf s t) := by
  unfold Space.insideOf
  infer_instance

/-- All three extents of a space are positive. -/
def Space.allPos (s : Space) : Prop :=
  s.x1 < s.x2 ∧ s.y1 < s.y2 ∧ s.z1 < s.z2

instance (s : Space) : Decidable (Space.allPos s) := by
  unfold Space.allPos
  infer_instance

/-!  PRNG model.  `jax.random` keys are modelled by natural numbers; splitting
derives fresh keys deterministically, and each primitive draw is a
deterministic function of its key.  Every invariant below is quantified over
all keys, so nothing depends on the particular scheme. -/

/-- Model of `jax.random.split(key)` returning `(key, subkey)`. -/
def rngSplit (k : Nat) : Nat × Nat :=
  (2 * k + 1, 2 * k + 2)

/-- Model of `jax.random.split(key, 3)`. -/
def rngSplit3 (k : Nat) : Nat × Nat × Nat :=
  (3 * k + 1, 3 * k + 2, 3 * k + 3)

/-- Model of `jax.random.randint(key, (), lo, hi)`: a draw in `[lo, hi)`.
For the degenerate range `hi ≤ lo` (never reached under the configurations
considered here) the draw is `lo`. -/
def randint (k lo hi : Nat) : Nat :=
  if lo < hi then lo + k % (hi - lo) else lo

/-- Model of `jax.random.uniform(key)`: a rational in `[0, 1)`. -/
def rngUnit (k : Nat) : ℚ :=
  (k % 97 : ℚ) / 97

/-- Model of `jax.random.choice(key, arange(n), p=weights)`: a deterministic
pick among the indices `i < n` of positive weight (indices of zero weight have
probability zero and are never chosen). -/
def weightedChoice (n : Nat) (w : Nat → Nat) (k : Nat) : Nat :=
  let cands := (List.range n).filter fun i => decide (0 < w i)
  if cands = [] then 0 else cands.getD (k % cands.length) 0

/-- `jnp.argmin(mask)` for a boolean vector of length `n`: the index of the
first `false` entry, or `0` when every entry is `true`. -/
def freeIndex (n : Nat) (mask : Nat → Bool) : Nat :=
  (((List.range n).filter fun i => !mask i).head?).getD 0

/-- Number of `true` entries of a mask of length `n` (`jnp.sum(items_mask)`). -/
def liveCount (n : Nat) (mask : Nat → Bool) : Nat :=
  ((Finset.range n).filter fun i => mask i = true).card

/-- Model of `jax.lax.fori_loop(lo, hi, body, x)`: auxiliary recursion on the
remaining iteration count. -/
def foriAux {α : Type} (f : Nat → α → α) : Nat → Nat → α → α
  | 0, _, x => x
  | k + 1, i, x => foriAux f k (i + 1) (f i x)

/-- Model of `jax.lax.fori_loop(lo, hi, body, x)`. -/
def foriLoop {α : Type} (lo hi : Nat) (f : Nat → α → α) (x : α) : α :=
  foriAux f (hi - lo) lo x

/-- Constructor configuration of `RandomInstanceGenerator` (all fields are
immutable after construction). -/
structure RandomConfig where
  max_num_items : Nat
  max_num_ems : Nat
  split_eps : ℚ
  prob_split_one_item : ℚ
  split_num_same_items : Nat
  container_dims : Nat × Nat × Nat

/-- `make_container`: min corner at the origin, max corner at the dims. -/
def make_container (dims : Nat × Nat × Nat) : Space :=
  { x1 := 0, x2 := dims.1, y1 := 0, y2 := dims.2.1, z1 := 0, z2 := dims.2.2 }

/-- The container generated for a configuration. -/
def RandomConfig.container (cfg : RandomConfig) : Space :=
  make_container cfg.container_dims

/-- Amount of each side of an interval of length `len` forbidden to the
binary-split point: `jnp.int32(split_eps * axis_len)` (truncation of the
non-negative product, i.e. the floor). -/
def padOf (eps : ℚ) (len : Nat) : Nat :=
  (⌊eps * (len : ℚ)⌋).toNat

/-- `RandomInstanceGenerator._split_item_once`: split `item_space` in two at a
point drawn from the `split_eps`-padded sub-range of its interval on `axis`.
The slot at `free_index` receives a copy of the slot at `item_id`, then the
original's upper bound and the copy's lower bound are set to the split point,
and the copy is marked occupied. -/
def splitItemOnce (cfg : RandomConfig) (itemSpace : Space) (axis : Axis)
    (axisLen : Nat) (itemId : Nat) (spaces : Nat → Space) (mask : Nat → Bool)
    (splitKey : Nat) : (Nat → Space) × (Nat → Bool) :=
  let axisMin := itemSpace.lo axis + padOf cfg.split_eps axisLen
  let axisMax := itemSpace.hi axis - padOf cfg.split_eps axisLen
  let axisSplit := randint splitKey axisMin axisMax
  let freeIdx := freeIndex cfg.max_num_items mask
  let spaces1 := Function.update spaces freeIdx (spaces itemId)
  let spaces2 := Function.update spaces1 itemId ((spaces1 itemId).withHi axis axisSplit)
  let spaces3 := Function.update spaces2 freeIdx ((spaces2 freeIdx).withLo axis axisSplit)
  (spaces3, Function.update mask freeIdx true)

/-- The count drawn by `_split_item_multiple_times`:
`jax.random.randint(split_key, (), 1, split_num_same_items + 1)`. -/
def numSplitOf (cfg : RandomConfig) (splitKey : Nat) : Nat :=
  randint splitKey 1 (cfg.split_num_same_items + 1)

/-- Loop body of `_split_item_multiple_times`: allocate the first free slot,
copy the slot at `item_id` into it, overwrite its bounds on `axis` with the
`i`-th sub-interval, and mark it occupied. -/
def multiSplitStep (n : Nat) (axis : Axis) (a len numSplit itemId : Nat)
    (i : Nat) (sm : (Nat → Space) × (Nat → Bool)) : (Nat → Space) × (Nat → Bool) :=
  let spaces := sm.1
  let mask := sm.2
  let freeIdx := freeIndex n mask
  let spaces1 := Function.update spaces freeIdx (spaces itemId)
  let spaces2 := Function.update spaces1 freeIdx
    ((spaces1 freeIdx).withLo axis (a + i * len / numSplit))
  let spaces3 := Function.update spaces2 freeIdx
    ((spaces2 freeIdx).withHi axis (a + (i + 1) * len / numSplit))
  (spaces3, Function.update mask freeIdx true)

/-- `RandomInstanceGenerator._split_item_multiple_times`: draw
`num_split ∈ [1, split_num_same_items]`, shorten the original slot to the
first of `num_split` equal sub-intervals, then allocate one slot per
remaining sub-interval. -/
def splitItemMultipleTimes (cfg : RandomConfig) (itemSpace : Space) (axis : Axis)
    (axisLen : Nat) (itemId : Nat) (spaces : Nat → Space) (mask : Nat → Bool)
    (splitKey : Nat) : (Nat → Space) × (Nat → Bool) :=
  let a := itemSpace.lo axis
  let numSplit := numSplitOf cfg splitKey
  let spaces0 := Function.update spaces itemId
    ((spaces itemId).withHi axis (a + axisLen / numSplit))
  foriLoop 1 numSplit (multiSplitStep cfg.max_num_items axis a axisLen numSplit itemId)
    (spaces0, mask)

/-- `RandomInstanceGenerator._split_along_axis`: pick a live slot with
probability proportional to its extent on `axis`, then split it either once
(with probability `prob_split_one_item`) or into several identical pieces. -/
def splitAlongAxis (cfg : RandomConfig) (axis : Axis) (spaces : Nat → Space)
    (mask : Nat → Bool) (key : Nat) : (Nat → Space) × (Nat → Bool) :=
  let ks := rngSplit3 key
  let itemKey := ks.1
  let splitKey := ks.2.1
  let modeKey := ks.2.2
  let itemId := weightedChoice cfg.max_num_items
    (fun i => if mask i then (item_from_space (spaces i)).lenAlong axis else 0) itemKey
  let itemSpace := spaces itemId
  let axisLen := itemSpace.hi axis - itemSpace.lo axis
  if rngUnit modeKey < cfg.prob_split_one_item then
    splitItemOnce cfg itemSpace axis axisLen itemId spaces mask splitKey
  else
    splitItemMultipleTimes cfg itemSpace axis axisLen itemId spaces mask splitKey

/-- The axis function selected by `jax.lax.switch` on a draw in `[0, 3)`. -/
def axisOfNat (n : Nat) : Axis :=
  match n with
  | 0 => .x
  | 1 => .y
  | _ => .z

/-- `RandomInstanceGenerator._split_space_into_sub_spaces`: one splitting
round.  Draw an axis, split along it, then clear the mask of any slot that
became empty (`items_mask &= ~items_spaces.is_empty()`). -/
def splitSpaceIntoSubSpaces (cfg : RandomConfig) (spaces : Nat → Space)
    (mask : Nat → Bool) (key : Nat) : (Nat → Space) × (Nat → Bool) :=
  let ks := rngSplit key
  let axis := axisOfNat (randint ks.1 0 3)
  let res := splitAlongAxis cfg axis spaces mask ks.2
  (res.1, fun i => res.2 i && !(res.1 i).isEmpty)

/-- State threaded through the splitting loop: the space buffer, its
occupancy mask and the PRNG key. -/
structure SplitSt where
  spaces : Nat → Space
  mask : Nat → Bool
  key : Nat

/-- `cond_fun` of the splitting loop:
`num_placed_items < max_num_items - split_num_same_items + 1` (in ℤ, as the
Python subtraction is not truncated). -/
def SplitCondHolds (cfg : RandomConfig) (st : SplitSt) : Prop :=
  (liveCount cfg.max_num_items st.mask : ℤ) <
    (cfg.max_num_items : ℤ) - (cfg.split_num_same_items : ℤ) + 1

instance (cfg : RandomConfig) (st : SplitSt) : Decidable (SplitCondHolds cfg st) := by
  unfold SplitCondHolds
  infer_instance

/-- `body_fun` of the splitting loop: derive a sub-key and run one round. -/
def splitBody (cfg : RandomConfig) (st : SplitSt) : SplitSt :=
  let ks := rngSplit st.key
  let res := splitSpaceIntoSubSpaces cfg st.spaces st.mask ks.2
  { spaces := res.1, mask := res.2, key := ks.1 }

/-- `jax.lax.while_loop(cond_fun, body_fun, init_val)`, with fuel. -/
def splitLoop (cfg : RandomConfig) : Nat → SplitSt → SplitSt
  | 0, st => st
  | fuel + 1, st =>
      if SplitCondHolds cfg st then splitLoop cfg fuel (splitBody cfg st) else st

/-- Initial space buffer: every slot holds a copy of the container
(`container * ones(max_num_items)`). -/
def initSpaces (cfg : RandomConfig) : Nat → Space :=
  fun _ => cfg.container

/-- Initial mask: `zeros(max_num_items).at[0].set(True)` (the update is
dropped when the buffer has length zero). -/
def initMask (cfg : RandomConfig) : Nat → Bool :=
  fun i => decide (i = 0 ∧ 0 < cfg.max_num_items)

/-- `RandomInstanceGenerator._split_container_into_items_spaces`. -/
def splitContainerIntoItemsSpaces (cfg : RandomConfig) (fuel : Nat) (key : Nat) :
    (Nat → Space) × (Nat → Bool) :=
  let fin := splitLoop cfg fuel
    { spaces := initSpaces cfg, mask := initMask cfg, key := key }
  (fin.spaces, fin.mask)

/-- The canonical `State` record assembled by the generators.  Arrays are
functions plus the explicit lengths `max_items` / `max_ems` (the shapes of
the jax arrays). -/
structure BPState where
  max_items : Nat
  max_ems : Nat
  container : Space
  ems : Nat → Space
  ems_mask : Nat → Bool
  items : Nat → Item
  items_mask : Nat → Bool
  items_placed : Nat → Bool
  items_location : Nat → Location
  sorted_ems_indexes : Nat → Nat
  key : Nat

/-- `RandomInstanceGenerator._generate_solved_instance`. -/
def generateSolvedInstance (cfg : RandomConfig) (fuel : Nat) (key : Nat) : BPState :=
  let ks := rngSplit key
  let container := cfg.container
  let sp := splitContainerIntoItemsSpaces cfg fuel ks.2
  { max_items := cfg.max_num_items
    max_ems := cfg.max_num_ems
    container := container
    ems := fun i => if i = 0 then container else empty_ems
    ems_mask := fun _ => false
    items := fun i => item_from_space (sp.1 i)
    items_mask := sp.2
    items_placed := sp.2
    items_location := fun i => location_from_space (sp.1 i)
    sorted_ems_indexes := fun i => i
    key := ks.1 }

/-- `RandomInstanceGenerator.generate_solution`. -/
def randomGenerateSolution (cfg : RandomConfig) (fuel : Nat) (key : Nat) : BPState :=
  generateSolvedInstance cfg fuel key

/-- Field transformation performed by `InstanceGenerator._unpack_items`:
`ems_mask` collapses to a single live entry, `items_placed` is cleared and
`items_location` zeroed.  (In the Python source the three assignments mutate
the given record in place; see `unpackItemsRef` for the reference-level
behaviour.) -/
def unpackItems (maxNumItems maxNumEms : Nat) (st : BPState) : BPState :=
  { st with
    ems_mask := fun i => decide (i = 0 ∧ 0 < maxNumEms)
    items_placed := fun _ => false
    items_location := fun _ => { x := 0, y := 0, z := 0 } }

/-- Reference-level model of `InstanceGenerator._unpack_items`.  The Python
`State` is a mutable record; `state.ems_mask = ...` (and the two following
assignments) update the object the caller passed in, and the function returns
that same object.  A heap maps references to records; the call updates the
heap at the given reference and returns the same reference. -/
def unpackItemsRef (maxNumItems maxNumEms : Nat) (heap : Nat → BPState)
    (r : Nat) : (Nat → BPState) × Nat :=
  (Function.update heap r (unpackItems maxNumItems maxNumEms (heap r)), r)

/-- `RandomInstanceGenerator.__call__`: generate the solved instance, then
unpack it (in place) into the reset state. -/
def randomCall (cfg : RandomConfig) (fuel : Nat) (key : Nat) : BPState :=
  unpackItems cfg.max_num_items cfg.max_num_ems (generateSolvedInstance cfg fuel key)

/-- The axis-aligned box occupied by a placed item: location plus extents. -/
def itemBox (st : BPState) (i : Nat) : Space :=
  { x1 := (st.items_location i).x
    x2 := (st.items_location i).x + (st.items i).x_len
    y1 := (st.items_location i).y
    y2 := (st.items_location i).y + (st.items i).y_len
    z1 := (st.items_location i).z
    z2 := (st.items_location i).z + (st.items i).z_len }

/-- Reachable states of the splitting loop: the initial state (for any key)
and every state obtained from a reachable state by a round the loop applies
(i.e. whose guard holds). -/
inductive SplitReachable (cfg : RandomConfig) : SplitSt → Prop where
  | init (key : Nat) :
      SplitReachable cfg
        { spaces := initSpaces cfg, mask := initMask cfg, key := key }
  | step (st : SplitSt) (h : SplitReachable cfg st) (hc : SplitCondHolds cfg st) :
      SplitReachable cfg (splitBody cfg st)

/-! ### Basic geometry lemmas -/

theorem Space.lo_withLo (s : Space) (a : Axis) (v : Nat) : (s.withLo a v).lo a = v := by
  cases a <;> rfl

theorem Space.hi_withLo (s : Space) (a : Axis) (v : Nat) : (s.withLo a v).hi a = s.hi a := by
  cases a <;> rfl

theorem Space.lo_withHi (s : Space) (a : Axis) (v : Nat) : (s.withHi a v).lo a = s.lo a := by
  cases a <;> rfl

theorem Space.hi_withHi (s : Space) (a : Axis) (v : Nat) : (s.withHi a v).hi a = v := by
  cases a <;> rfl

/-- The two interval bounds overwritten in sequence. -/
def Space.withLoHi (s : Space) (a : Axis) (v w : Nat) : Space :=
  (s.withLo a v).withHi a w

theorem Space.withHi_eq_withLoHi (s : Space) (a : Axis) (w : Nat) :
    s.withHi a w = s.withLoHi a (s.lo a) w := by
  cases a <;> rfl

theorem Space.withLoHi_withHi (s : Space) (a : Axis) (u v w : Nat) :
    (s.withHi a u).withLoHi a v w = s.withLoHi a v w := by
  cases a <;> rfl

theorem Space.withLo_withHi_eq (s : Space) (a : Axis) (v w : Nat) :
    (s.withHi a w).withLo a v = s.withLoHi a v w := by
  cases a <;> rfl

/-- Product of the two interval lengths on the axes other than `a`. -/
def Space.crossSec (s : Space) (a : Axis) : Nat :=
  match a with
  | .x => (s.y2 - s.y1) * (s.z2 - s.z1)
  | .y => (s.x2 - s.x1) * (s.z2 - s.z1)
  | .z => (s.x2 - s.x1) * (s.y2 - s.y1)

theorem Space.volume_eq_len_mul_crossSec (s : Space) (a : Axis) :
    s.volume = (s.hi a - s.lo a) * s.crossSec a := by
  cases a <;> simp [Space.volume, Space.crossSec, Space.hi, Space.lo] <;> ring

theorem Space.crossSec_withLoHi (s : Space) (a : Axis) (v w : Nat) :
    (s.withLoHi a v w).crossSec a = s.crossSec a := by
  cases a <;> rfl

theorem Space.volume_withLoHi (s : Space) (a : Axis) (v w : Nat) :
    (s.withLoHi a v w).volume = (w - v) * s.crossSec a := by
  rw [Space.volume_eq_len_mul_crossSec _ a, Space.crossSec_withLoHi]
  cases a <;> rfl

theorem Space.isEmpty_eq_false_iff (s : Space) : s.isEmpty = false ↔ s.allPos := by
  simp only [Space.isEmpty, Space.allPos, Bool.or_eq_false_iff, decide_eq_false_iff_not,
    not_le]
  tauto

theorem Space.volume_of_isEmpty (s : Space) (h : s.isEmpty = true) : s.volume = 0 := by
  simp only [Space.isEmpty, Bool.or_eq_true, decide_eq_true_eq] at h
  rcases h with h | h
  · rcases h with h | h
    · simp [Space.volume, Nat.sub_eq_zero_of_le h]
    · simp [Space.volume, Nat.sub_eq_zero_of_le h]
  · simp [Space.volume, Nat.sub_eq_zero_of_le h]

theorem Space.insideOf_trans {s t u : Space} (h1 : s.insideOf t) (h2 : t.insideOf u) :
    s.insideOf u := by
  unfold Space.insideOf at *
  omega

theorem Space.insideOf_refl_of_inside {s t : Space} (h : s.insideOf t) : s.insideOf s := by
  unfold Space.insideOf at *
  omega

theorem Space.DisjointSp.mono {s s' t t' : Space} (hs : s.insideOf s')
    (ht : t.insideOf t') (h : s'.DisjointSp t') : s.DisjointSp t := by
  unfold Space.insideOf at hs ht
  unfold Space.DisjointSp at *
  omega

/-- A piece cut out of the interval of `B` on axis `a` is a well-formed
sub-box of `B`. -/
theorem Space.withLoHi_insideOf {B : Space} {a : Axis} {v w : Nat}
    (hB : B.insideOf B) (hv : B.lo a ≤ v) (hvw : v ≤ w) (hw : w ≤ B.hi a) :
    (B.withLoHi a v w).insideOf B := by
  unfold Space.insideOf at *
  cases a <;> simp [Space.withLoHi, Space.withLo, Space.withHi, Space.lo, Space.hi] at * <;>
    omega

/-- Two pieces on the same axis of the same box with separated intervals are
disjoint. -/
theorem Space.withLoHi_disjoint {B : Space} {a : Axis} {v w v' w' : Nat}
    (h : w ≤ v') : (B.withLoHi a v w).DisjointSp (B.withLoHi a v' w') := by
  unfold Space.DisjointSp
  cases a <;> simp [Space.withLoHi, Space.withLo, Space.withHi] <;> omega

theorem Space.withLoHi_allPos {B : Space} {a : Axis} {v w : Nat}
    (hB : B.allPos) (hvw : v < w) : (B.withLoHi a v w).allPos := by
  unfold Space.allPos at *
  cases a <;> simp [Space.withLoHi, Space.withLo, Space.withHi] <;> omega

theorem item_from_space_lenAlong (s : Space) (a : Axis) :
    (item_from_space s).lenAlong a = s.hi a - s.lo a := by
  cases a <;> rfl

theorem Item.volume_item_from_space (s : Space) :
    (item_from_space s).volume = s.volume := by
  rfl

/-! ### Lists, free slots and live count -/

theorem find?_eq_head?_filter (p : α → Bool) :
    ∀ l : List α, l.find? p = (l.filter p).head?
  | [] => rfl
  | a :: l => by
    by_cases h : p a
    · rw [List.find?_cons_of_pos _ h, List.filter_cons_of_pos h, List.head?_cons]
    · rw [List.find?_cons_of_neg _ h, List.filter_cons_of_neg h,
        find?_eq_head?_filter p l]

/-- Indices of the `false` entries of a mask of length `n`, in order. -/
def freeSlots (n : Nat) (mask : Nat → Bool) : List Nat :=
  (List.range n).filter fun i => !mask i

theorem freeIndex_eq (n : Nat) (mask : Nat → Bool) :
    freeIndex n mask = (freeSlots n mask).head?.getD 0 := rfl

theorem mem_freeSlots {n : Nat} {mask : Nat → Bool} {i : Nat} :
    i ∈ freeSlots n mask ↔ i < n ∧ mask i = false := by
  simp [freeSlots, List.mem_filter, List.mem_range]

theorem freeSlots_nodup (n : Nat) (mask : Nat → Bool) : (freeSlots n mask).Nodup :=
  (List.nodup_range n).filter _

theorem liveCount_le (n : Nat) (mask : Nat → Bool) : liveCount n mask ≤ n := by
  calc liveCount n mask ≤ (Finset.range n).card := Finset.card_filter_le _ _
  _ = n := Finset.card_range n

theorem length_freeSlots_add_liveCount (mask : Nat → Bool) :
    ∀ n : Nat, (freeSlots n mask).length + liveCount n mask = n := by
  intro n
  induction n with
  | zero => simp [freeSlots, liveCount]
  | succ m ih =>
      by_cases h : mask m
      · have h1 : freeSlots (m + 1) mask = freeSlots m mask := by
          simp [freeSlots, List.range_succ, List.filter_append, h]
        have h2 : liveCount (m + 1) mask = liveCount m mask + 1 := by
          unfold liveCount
          rw [Finset.range_succ, Finset.filter_insert, if_pos h,
            Finset.card_insert_of_not_mem (by simp)]
        rw [h1, h2]
        omega
      · have hm : mask m = false := by
          simp only [Bool.not_eq_true] at h
          exact h
        have h1 : (freeSlots (m + 1) mask).length = (freeSlots m mask).length + 1 := by
          simp [freeSlots, List.range_succ, List.filter_append, hm]
        have h2 : liveCount (m + 1) mask = liveCount m mask := by
          unfold liveCount
          rw [Finset.range_succ, Finset.filter_insert, if_neg h]
        rw [h1, h2]
        omega

theorem freeSlots_ne_nil_of_liveCount_lt {n : Nat} {mask : Nat → Bool}
    (h : liveCount n mask < n) : freeSlots n mask ≠ [] := by
  intro hnil
  have := length_freeSlots_add_liveCount mask n
  rw [hnil] at this
  simp at this
  omega

theorem freeIndex_spec {n : Nat} {mask : Nat → Bool} (h : freeSlots n mask ≠ []) :
    freeIndex n mask < n ∧ mask (freeIndex n mask) = false := by
  have hmem : freeIndex n mask ∈ freeSlots n mask := by
    rw [freeIndex_eq]
    cases hF : freeSlots n mask with
    | nil => exact absurd hF h
    | cons a l => simp [hF]
  exact mem_freeSlots.mp hmem

theorem liveCount_update_true_le (n : Nat) (mask : Nat → Bool) (j : Nat) :
    liveCount n (Function.update mask j true) ≤ liveCount n mask + 1 := by
  unfold liveCount
  have hsub : (Finset.range n).filter (fun i => Function.update mask j true i = true) ⊆
      insert j ((Finset.range n).filter fun i => mask i = true) := by
    intro i hi
    simp only [Finset.mem_filter, Finset.mem_range] at hi
    by_cases hij : i = j
    · simp [hij]
    · rw [Function.update_noteq hij] at hi
      simp [Finset.mem_filter, hi.1, hi.2]
  calc ((Finset.range n).filter fun i => Function.update mask j true i = true).card
      ≤ (insert j ((Finset.range n).filter fun i => mask i = true)).card :=
        Finset.card_le_card hsub
    _ ≤ ((Finset.range n).filter fun i => mask i = true).card + 1 :=
        Finset.card_insert_le _ _

theorem liveCount_update_true_of_false {n : Nat} {mask : Nat → Bool} {j : Nat}
    (hj : j < n) (hm : mask j = false) :
    liveCount n (Function.update mask j true) = liveCount n mask + 1 := by
  unfold liveCount
  have heq : (Finset.range n).filter (fun i => Function.update mask j true i = true) =
      insert j ((Finset.range n).filter fun i => mask i = true) := by
    ext i
    simp only [Finset.mem_filter, Finset.mem_range, Finset.mem_insert]
    by_cases hij : i = j
    · subst hij
      simp [Function.update_same, hj]
    · rw [Function.update_noteq hij]
      simp [hij]
  rw [heq, Finset.card_insert_of_not_mem]
  simp [Finset.mem_filter, hm]

theorem liveCount_and_le (n : Nat) (mask : Nat → Bool) (p : Nat → Bool) :
    liveCount n (fun i => mask i && p i) ≤ liveCount n mask := by
  unfold liveCount
  apply Finset.card_le_card
  intro i hi
  simp only [Finset.mem_filter, Bool.and_eq_true] at hi ⊢
  exact ⟨hi.1, hi.2.1⟩

/-- Generic lower bound on the live count of a transformed mask: every live
slot other than `i0` stays live, and some previously-free slot `j0` becomes
live. -/
theorem liveCount_le_of_keep {n : Nat} {m m' : Nat → Bool} (i0 j0 : Nat)
    (hj0n : j0 < n) (hj0 : m j0 = false) (hj0' : m' j0 = true)
    (hkeep : ∀ j, j < n → m j = true → j ≠ i0 → m' j = true) :
    liveCount n m ≤ liveCount n m' := by
  classical
  unfold liveCount
  set B := (Finset.range n).filter fun i => m i = true with hB
  set A := (Finset.range n).filter fun i => m' i = true with hA
  have hsub : insert j0 (B.erase i0) ⊆ A := by
    intro j hj
    rcases Finset.mem_insert.mp hj with hj | hj
    · subst hj
      simp [hA, Finset.mem_filter, Finset.mem_range, hj0n, hj0']
    · have hji : j ≠ i0 := (Finset.mem_erase.mp hj).1
      have hjB := (Finset.mem_erase.mp hj).2
      simp only [hB, Finset.mem_filter, Finset.mem_range] at hjB
      simp only [hA, Finset.mem_filter, Finset.mem_range]
      exact ⟨hjB.1, hkeep j hjB.1 hjB.2 hji⟩
  have hcard : (insert j0 (B.erase i0)).card ≤ A.card := Finset.card_le_card hsub
  have hj0B : j0 ∉ B.erase i0 := by
    intro hmem
    have := (Finset.mem_erase.mp hmem).2
    simp only [hB, Finset.mem_filter] at this
    rw [hj0] at this
    exact absurd this.2 (by simp)
  rw [Finset.card_insert_of_not_mem hj0B] at hcard
  by_cases hi0 : i0 ∈ B
  · have : (B.erase i0).card = B.card - 1 := Finset.card_erase_of_mem hi0
    have hBpos : 1 ≤ B.card := Finset.card_pos.mpr ⟨i0, hi0⟩
    omega
  · have herase : B.erase i0 = B := Finset.erase_eq_of_not_mem hi0
    rw [herase] at hcard
    omega

/-- Setting the first free slot to `true` removes exactly the head of the
free-slot list. -/
theorem freeSlots_update_freeIndex {n : Nat} {mask : Nat → Bool}
    (h : freeSlots n mask ≠ []) :
    freeSlots n (Function.update mask (freeIndex n mask) true) =
      (freeSlots n mask).tail := by
  obtain ⟨j, F', hF⟩ := List.exists_cons_of_ne_nil h
  have hjhead : freeIndex n mask = j := by
    rw [freeIndex_eq, hF]
    rfl
  have hnodup : (freeSlots n mask).Nodup := freeSlots_nodup n mask
  rw [hjhead, hF, List.tail_cons]
  have hstep : freeSlots n (Function.update mask j true) =
      (freeSlots n mask).filter fun i => decide (i ≠ j) := by
    unfold freeSlots
    rw [List.filter_filter]
    apply List.filter_congr
    intro i _
    by_cases hij : i = j
    · subst hij
      simp [Function.update_same]
    · rw [Function.update_noteq hij]
      simp [hij]
  rw [hstep, hF, List.filter_cons]
  have hd : decide (j ≠ j) = false := by simp
  rw [hd, if_neg (by simp)]
  have hjnot : j ∉ F' := by
    rw [hF] at hnodup
    exact (List.nodup_cons.mp hnodup).1
  apply List.filter_eq_self.mpr
  intro i hi
  simp only [decide_eq_true_eq, ne_eq, decide_eq_true_eq]
  intro hij
  exact hjnot (hij ▸ hi)

/-! ### Bounds on the random draws -/

theorem randint_le_left (k lo hi : Nat) : lo ≤ randint k lo hi := by
  unfold randint
  split <;> omega

theorem randint_lt_right {k lo hi : Nat} (h : lo < hi) : randint k lo hi < hi := by
  unfold randint
  rw [if_pos h]
  have := Nat.mod_lt k (show 0 < hi - lo by omega)
  omega

theorem two_mul_padOf_lt {eps : ℚ} {len : Nat} (h0 : 0 ≤ eps) (h2 : eps < 1 / 2)
    (hlen : 0 < len) : 2 * padOf eps len < len := by
  have hq0 : (0 : ℚ) ≤ eps * len := by positivity
  have hfl0 : 0 ≤ ⌊eps * (len : ℚ)⌋ := Int.floor_nonneg.mpr hq0
  have key : ((padOf eps len : Nat) : ℚ) ≤ eps * len := by
    have h1 : ((⌊eps * (len : ℚ)⌋.toNat : ℤ) : ℚ) ≤ eps * len := by
      rw [Int.toNat_of_nonneg hfl0]
      exact Int.floor_le _
    unfold padOf
    exact_mod_cast h1
  by_contra hcon
  push_neg at hcon
  have hc : (len : ℚ) ≤ 2 * ((padOf eps len : Nat) : ℚ) := by exact_mod_cast hcon
  have hlenq : (0 : ℚ) < len := by exact_mod_cast hlen
  nlinarith

theorem weightedChoice_spec {n : Nat} {w : Nat → Nat} (k : Nat)
    (h : ∃ i, i < n ∧ 0 < w i) :
    weightedChoice n w k < n ∧ 0 < w (weightedChoice n w k) := by
  obtain ⟨i, hin, hwi⟩ := h
  unfold weightedChoice
  set cands := (List.range n).filter fun i => decide (0 < w i) with hcands
  have hne : cands ≠ [] := by
    have hmem0 : i ∈ cands := by
      simp [hcands, List.mem_filter, List.mem_range, hin, hwi]
    exact List.ne_nil_of_mem hmem0
  rw [if_neg hne]
  have hlen : 0 < cands.length := List.length_pos.mpr hne
  have hlt : k % cands.length < cands.length := Nat.mod_lt _ hlen
  have hmem : cands.getD (k % cands.length) 0 ∈ cands := by
    rw [List.getD_eq_getElem cands 0 hlt]
    exact List.getElem_mem _
  rw [hcands] at hmem
  simp only [List.mem_filter, List.mem_range, decide_eq_true_eq] at hmem
  exact hmem

theorem numSplitOf_pos (cfg : RandomConfig) (k : Nat) : 1 ≤ numSplitOf cfg k :=
  randint_le_left _ _ _

theorem numSplitOf_le (cfg : RandomConfig) (k : Nat)
    (hs : 1 ≤ cfg.split_num_same_items) :
    numSplitOf cfg k ≤ cfg.split_num_same_items := by
  have := @randint_lt_right k 1 (cfg.split_num_same_items + 1) (by omega)
  unfold numSplitOf
  omega

theorem sum_range_sub_telescope (f : Nat → Nat) (hf : ∀ i, f i ≤ f (i + 1)) :
    ∀ n, ∑ q ∈ Finset.range n, (f (q + 1) - f q) = f n - f 0 := by
  intro n
  induction n with
  | zero => simp
  | succ m ih =>
      rw [Finset.sum_range_succ, ih]
      have h0m : f 0 ≤ f m := by
        clear ih
        induction m with
        | zero => exact le_refl _
        | succ p ihp => exact le_trans ihp (hf p)
      have := hf m
      omega

/-! ### Characterisation of the multi-split loop -/

theorem multiSplitStep_eq (N : Nat) (axis : Axis) (a len ns itemId i : Nat)
    (sp : Nat → Space) (m : Nat → Bool) :
    multiSplitStep N axis a len ns itemId i (sp, m) =
      (Function.update sp (freeIndex N m)
        ((sp itemId).withLoHi axis (a + i * len / ns) (a + (i + 1) * len / ns)),
       Function.update m (freeIndex N m) true) := by
  unfold multiSplitStep
  simp only [Function.update_idem, Function.update_same]
  rfl

theorem multiFori_char (N : Nat) (axis : Axis) (a len ns itemId : Nat) :
    ∀ (cnt i0 : Nat) (sp : Nat → Space) (m : Nat → Bool),
      itemId ∉ freeSlots N m → cnt ≤ (freeSlots N m).length →
      (∀ j, j ∉ (freeSlots N m).take cnt →
        (foriAux (multiSplitStep N axis a len ns itemId) cnt i0 (sp, m)).1 j = sp j ∧
        (foriAux (multiSplitStep N axis a len ns itemId) cnt i0 (sp, m)).2 j = m j) ∧
      (∀ p, p < cnt →
        (foriAux (multiSplitStep N axis a len ns itemId) cnt i0 (sp, m)).1
            ((freeSlots N m).getD p 0) =
          (sp itemId).withLoHi axis (a + (i0 + p) * len / ns)
            (a + (i0 + p + 1) * len / ns) ∧
        (foriAux (multiSplitStep N axis a len ns itemId) cnt i0 (sp, m)).2
            ((freeSlots N m).getD p 0) = true) := by
  intro cnt
  induction cnt with
  | zero =>
      intro i0 sp m _ _
      exact ⟨fun j _ => ⟨rfl, rfl⟩, fun p hp => absurd hp (Nat.not_lt_zero p)⟩
  | succ cnt ih =>
      intro i0 sp m hitem hlen
      have hne : freeSlots N m ≠ [] := by
        intro hnil
        rw [hnil] at hlen
        simp at hlen
      obtain ⟨x, F', hF⟩ := List.exists_cons_of_ne_nil hne
      have hx : freeIndex N m = x := by
        rw [freeIndex_eq, hF]
        rfl
      have hxF' : x ∉ F' := by
        have := freeSlots_nodup N m
        rw [hF] at this
        exact (List.nodup_cons.mp this).1
      have hxitem : x ≠ itemId := by
        intro hcon
        apply hitem
        rw [hF, hcon]
        exact List.mem_cons_self _ _
      have htail : freeSlots N (Function.update m x true) = F' := by
        have := freeSlots_update_freeIndex hne
        rw [hx, hF] at this
        simpa using this
      have hstep : foriAux (multiSplitStep N axis a len ns itemId) (cnt + 1) i0 (sp, m) =
          foriAux (multiSplitStep N axis a len ns itemId) cnt (i0 + 1)
            (multiSplitStep N axis a len ns itemId i0 (sp, m)) := rfl
      have htail : freeSlots N (Function.update m x true) = F' := by
        have := freeSlots_update_freeIndex hne
        rw [hx, hF] at this
        simpa using this
      have hitem1 : itemId ∉ freeSlots N (Function.update m x true) := by
        rw [htail]
        intro hmem
        apply hitem
        rw [hF]
        exact List.mem_cons_of_mem _ hmem
      have hlen1 : cnt ≤ (freeSlots N (Function.update m x true)).length := by
        rw [htail]
        rw [hF] at hlen
        simpa using hlen
      obtain ⟨K1, K2⟩ := ih (i0 + 1)
        (Function.update sp x
          ((sp itemId).withLoHi axis (a + i0 * len / ns) (a + (i0 + 1) * len / ns)))
        (Function.update m x true) hitem1 hlen1
      rw [htail] at K1 K2
      have hspitem : Function.update sp x
          ((sp itemId).withLoHi axis (a + i0 * len / ns) (a + (i0 + 1) * len / ns))
          itemId = sp itemId := Function.update_noteq (Ne.symm hxitem) _ _
      rw [hspitem] at K2
      rw [hstep, multiSplitStep_eq, hx]
      constructor
      · intro j hj
        rw [hF, List.take_succ_cons, List.mem_cons] at hj
        push_neg at hj
        obtain ⟨hjx, hjtake⟩ := hj
        obtain ⟨e1, e2⟩ := K1 j hjtake
        refine ⟨?_, ?_⟩
        · rw [e1]
          exact Function.update_noteq hjx _ _
        · rw [e2]
          exact Function.update_noteq hjx _ _
      · intro p hp
        match p with
        | 0 =>
            have hget : (freeSlots N m).getD 0 0 = x := by
              rw [hF]
              rfl
            rw [hget]
            have hxtake : x ∉ F'.take cnt := fun hmem => hxF' (List.take_subset _ _ hmem)
            obtain ⟨e1, e2⟩ := K1 x hxtake
            refine ⟨?_, ?_⟩
            · rw [e1, Function.update_same]
              simp
            · rw [e2, Function.update_same]
        | p + 1 =>
            have hget : (freeSlots N m).getD (p + 1) 0 = F'.getD p 0 := by
              rw [hF]
              rfl
            rw [hget]
            obtain ⟨e1, e2⟩ := K2 p (by omega)
            refine ⟨?_, ?_⟩
            · rw [e1]
              rw [(by omega : i0 + 1 + p = i0 + (p + 1))]
            · exact e2

theorem getD_take {α : Type} :
    ∀ (l : List α) (n p : Nat), p < n → ∀ d : α, (l.take n).getD p d = l.getD p d
  | [], _, _, _, _ => by simp
  | _ :: _, 0, p, h, d => absurd h (Nat.not_lt_zero p)
  | a :: l, n + 1, 0, _, d => by simp [List.take_succ_cons]
  | a :: l, n + 1, p + 1, h, d => by
      simp only [List.take_succ_cons, List.getD_cons_succ]
      exact getD_take l n p (by omega) d

/-- Full characterisation of `_split_item_multiple_times` applied, as in the
source, to the slice `spaces[item_id]`: the original slot is shortened to the
first sub-interval, and the first `num_split - 1` free slots receive the
remaining sub-intervals (copies of the original on the other axes). -/
theorem splitItemMultipleTimes_char (cfg : RandomConfig) (axis : Axis)
    (itemId : Nat) (len : Nat) (sp : Nat → Space) (m : Nat → Bool) (splitKey : Nat)
    (hmask : m itemId = true)
    (hfree : numSplitOf cfg splitKey - 1 ≤ (freeSlots cfg.max_num_items m).length) :
    (splitItemMultipleTimes cfg (sp itemId) axis len itemId sp m splitKey).1 itemId =
        (sp itemId).withHi axis ((sp itemId).lo axis + len / numSplitOf cfg splitKey) ∧
    (splitItemMultipleTimes cfg (sp itemId) axis len itemId sp m splitKey).2 itemId = true ∧
    (∀ j, j ∉ (freeSlots cfg.max_num_items m).take (numSplitOf cfg splitKey - 1) →
      j ≠ itemId →
      (splitItemMultipleTimes cfg (sp itemId) axis len itemId sp m splitKey).1 j = sp j) ∧
    (∀ j, j ∉ (freeSlots cfg.max_num_items m).take (numSplitOf cfg splitKey - 1) →
      (splitItemMultipleTimes cfg (sp itemId) axis len itemId sp m splitKey).2 j = m j) ∧
    (∀ p, p < numSplitOf cfg splitKey - 1 →
      (splitItemMultipleTimes cfg (sp itemId) axis len itemId sp m splitKey).1
          ((freeSlots cfg.max_num_items m).getD p 0) =
        (sp itemId).withLoHi axis
          ((sp itemId).lo axis + (p + 1) * len / numSplitOf cfg splitKey)
          ((sp itemId).lo axis + (p + 2) * len / numSplitOf cfg splitKey) ∧
      (splitItemMultipleTimes cfg (sp itemId) axis len itemId sp m splitKey).2
          ((freeSlots cfg.max_num_items m).getD p 0) = true) := by
  have hitemFree : itemId ∉ freeSlots cfg.max_num_items m := by
    intro hmem
    rw [(mem_freeSlots.mp hmem).2] at hmask
    exact absurd hmask (by simp)
  unfold splitItemMultipleTimes
  simp only
  rw [foriLoop]
  set N := cfg.max_num_items with hN
  set ns := numSplitOf cfg splitKey with hns
  set a := (sp itemId).lo axis with ha
  set sp0 := Function.update sp itemId ((sp itemId).withHi axis (a + len / ns))
    with hsp0
  obtain ⟨K1, K2⟩ := multiFori_char N axis a len ns itemId (ns - 1) 1 sp0 m
    hitemFree hfree
  have hsp0item : sp0 itemId = (sp itemId).withHi axis (a + len / ns) := by
    rw [hsp0, Function.update_same]
  refine ⟨?_, ?_, ?_, ?_, ?_⟩
  · have := K1 itemId (fun hmem => hitemFree (List.take_subset _ _ hmem))
    rw [this.1, hsp0item]
  · have := K1 itemId (fun hmem => hitemFree (List.take_subset _ _ hmem))
    rw [this.2, hmask]
  · intro j hj hji
    have := K1 j hj
    rw [this.1, hsp0, Function.update_noteq hji]
  · intro j hj
    exact (K1 j hj).2
  · intro p hp
    obtain ⟨e1, e2⟩ := K2 p hp
    refine ⟨?_, e2⟩
    rw [e1, hsp0item, Space.withLoHi_withHi]
    rw [(by omega : 1 + p = p + 1), (by omega : p + 1 + 1 = p + 2)]

/-! ### Characterisation of the binary split -/

theorem splitItemOnce_char (cfg : RandomConfig) (axis : Axis) (itemId len : Nat)
    (sp : Nat → Space) (m : Nat → Bool) (splitKey : Nat)
    (hmask : m itemId = true) (hne : freeSlots cfg.max_num_items m ≠ []) :
    (splitItemOnce cfg (sp itemId) axis len itemId sp m splitKey).1 itemId =
        (sp itemId).withHi axis
          (randint splitKey ((sp itemId).lo axis + padOf cfg.split_eps len)
            ((sp itemId).hi axis - padOf cfg.split_eps len)) ∧
    (splitItemOnce cfg (sp itemId) axis len itemId sp m splitKey).1
        (freeIndex cfg.max_num_items m) =
      (sp itemId).withLo axis
        (randint splitKey ((sp itemId).lo axis + padOf cfg.split_eps len)
          ((sp itemId).hi axis - padOf cfg.split_eps len)) ∧
    (∀ j, j ≠ itemId → j ≠ freeIndex cfg.max_num_items m →
      (splitItemOnce cfg (sp itemId) axis len itemId sp m splitKey).1 j = sp j) ∧
    (splitItemOnce cfg (sp itemId) axis len itemId sp m splitKey).2 =
      Function.update m (freeIndex cfg.max_num_items m) true := by
  have hf := freeIndex_spec hne
  have hfne : freeIndex cfg.max_num_items m ≠ itemId := by
    intro hcon
    rw [hcon, hmask] at hf
    exact absurd hf.2 (by simp)
  unfold splitItemOnce
  simp only
  refine ⟨?_, ?_, ?_, ?_⟩
  · rw [Function.update_noteq (Ne.symm hfne), Function.update_same,
      Function.update_noteq (Ne.symm hfne)]
  · rw [Function.update_same, Function.update_noteq hfne, Function.update_same]
  · intro j hji hjf
    rw [Function.update_noteq hjf, Function.update_noteq hji, Function.update_noteq hjf]
  · first
    | rfl
    | trivial

/-! ### The tiling invariant of the splitting loop -/

/-- Invariant of the splitting state: every live slot is a well-formed box
inside the container, live slots are pairwise disjoint, their volumes add up
to the container volume exactly, and every live slot has positive extents. -/
structure SplitInv (c : Space) (N : Nat) (sp : Nat → Space) (m : Nat → Bool) : Prop where
  inside : ∀ i, i < N → m i = true → (sp i).insideOf c
  disj : ∀ i j, i < N → j < N → i ≠ j → m i = true → m j = true →
    Space.DisjointSp (sp i) (sp j)
  total : (∑ i ∈ Finset.range N, if m i = true then (sp i).volume else 0) = c.volume
  pos : ∀ i, i < N → m i = true → (sp i).allPos

/-- Validity constraints on the configuration (the constructor-documented
ranges of `split_eps`, `split_num_same_items` and positive container dims). -/
structure ValidSplitCfg (cfg : RandomConfig) : Prop where
  eps_pos : 0 < cfg.split_eps
  eps_lt : cfg.split_eps < 1 / 2
  snsi : 1 ≤ cfg.split_num_same_items
  dims : cfg.container.allPos

theorem Space.allPos_lo_lt_hi {s : Space} (h : s.allPos) (a : Axis) :
    s.lo a < s.hi a := by
  obtain ⟨hx, hy, hz⟩ := h
  cases a <;> assumption

theorem Space.withLo_eq_withLoHi (s : Space) (a : Axis) (v : Nat) :
    s.withLo a v = s.withLoHi a v (s.hi a) := by
  cases a <;> rfl

theorem Space.withHi_hi_self (s : Space) (a : Axis) : s.withHi a (s.hi a) = s := by
  cases a <;> rfl

theorem Space.DisjointSp.symm {s t : Space} (h : s.DisjointSp t) : t.DisjointSp s := by
  unfold Space.DisjointSp at *
  omega

/-- Clearing the mask of empty slots does not change the masked volume sum,
since an empty slot has zero volume. -/
theorem sum_masked_and_notEmpty (N : Nat) (sp : Nat → Space) (m : Nat → Bool) :
    (∑ i ∈ Finset.range N, if (m i && !(sp i).isEmpty) = true then (sp i).volume else 0) =
      ∑ i ∈ Finset.range N, if m i = true then (sp i).volume else 0 := by
  apply Finset.sum_congr rfl
  intro i _
  cases hm : m i
  · simp
  · cases he : (sp i).isEmpty
    · simp [he]
    · simp [he, Space.volume_of_isEmpty _ he]

/-- Under the invariant a non-degenerate container has at least one live
slot, and that slot has positive extents on every axis. -/
theorem SplitInv.exists_live {c : Space} {N : Nat} {sp : Nat → Space}
    {m : Nat → Bool} (hInv : SplitInv c N sp m) (hc : 0 < c.volume) :
    ∃ i, i < N ∧ m i = true ∧ (sp i).allPos := by
  have hsum : (∑ i ∈ Finset.range N, if m i = true then (sp i).volume else 0) ≠ 0 := by
    rw [hInv.total]
    omega
  obtain ⟨i, hiN, hi⟩ := Finset.exists_ne_zero_of_sum_ne_zero hsum
  rw [Finset.mem_range] at hiN
  have hmi : m i = true := by
    by_contra hcon
    simp [hcon] at hi
  exact ⟨i, hiN, hmi, hInv.pos i hiN hmi⟩

/-- Positive container volume from positive dimensions. -/
theorem Space.volume_pos_of_allPos {s : Space} (h : s.allPos) : 0 < s.volume := by
  obtain ⟨hx, hy, hz⟩ := h
  unfold Space.volume
  have h1 : 0 < s.x2 - s.x1 := by omega
  have h2 : 0 < s.y2 - s.y1 := by omega
  have h3 : 0 < s.z2 - s.z1 := by omega
  positivity

theorem isEmpty_eq_false_of_allPos {s : Space} (h : s.allPos) : s.isEmpty = false :=
  (Space.isEmpty_eq_false_iff s).mpr h

/-- Invariant preservation and live-count bounds for a binary split followed
by the empty-slot mask clearing, stated over the pointwise description of
the updated buffer. -/
theorem binaryDesc_preserve (c : Space) (N : Nat) (sp sp3 : Nat → Space)
    (m : Nat → Bool) (axis : Axis) (itemId f0 msplit : Nat)
    (hInv : SplitInv c N sp m)
    (hiN : itemId < N) (him : m itemId = true)
    (hf0N : f0 < N) (hf0 : m f0 = false)
    (hms1 : (sp itemId).lo axis ≤ msplit) (hms2 : msplit < (sp itemId).hi axis)
    (h1 : sp3 itemId = (sp itemId).withHi axis msplit)
    (h2 : sp3 f0 = (sp itemId).withLo axis msplit)
    (h3 : ∀ j, j ≠ itemId → j ≠ f0 → sp3 j = sp j) :
    SplitInv c N sp3 (fun i => Function.update m f0 true i && !(sp3 i).isEmpty) ∧
    liveCount N m ≤
      liveCount N (fun i => Function.update m f0 true i && !(sp3 i).isEmpty) ∧
    liveCount N (fun i => Function.update m f0 true i && !(sp3 i).isEmpty) ≤
      liveCount N m + 1 := by
  have hfni : f0 ≠ itemId := by
    intro hcon
    rw [hcon, him] at hf0
    exact absurd hf0 (by simp)
  have hB : (sp itemId).insideOf c := hInv.inside itemId hiN him
  have hBB : (sp itemId).insideOf (sp itemId) := Space.insideOf_refl_of_inside hB
  have hBpos : (sp itemId).allPos := hInv.pos itemId hiN him
  have h1' : sp3 itemId =
      (sp itemId).withLoHi axis ((sp itemId).lo axis) msplit := by
    rw [h1, Space.withHi_eq_withLoHi]
  have h2' : sp3 f0 =
      (sp itemId).withLoHi axis msplit ((sp itemId).hi axis) := by
    rw [h2, Space.withLo_eq_withLoHi]
  have hP1B : (sp3 itemId).insideOf (sp itemId) := by
    rw [h1']
    exact Space.withLoHi_insideOf hBB (le_refl _) hms1 (le_of_lt hms2)
  have hP2B : (sp3 f0).insideOf (sp itemId) := by
    rw [h2']
    exact Space.withLoHi_insideOf hBB hms1 (le_of_lt hms2) (le_refl _)
  have hP2pos : (sp3 f0).allPos := by
    rw [h2']
    exact Space.withLoHi_allPos hBpos hms2
  have hm4 : ∀ i, (Function.update m f0 true i && !(sp3 i).isEmpty) = true ↔
      (Function.update m f0 true i = true ∧ (sp3 i).isEmpty = false) := by
    intro i
    rw [Bool.and_eq_true, Bool.not_eq_true']
  have hupd : ∀ i, i ≠ f0 → Function.update m f0 true i = m i := by
    intro i hi
    exact Function.update_noteq hi _ _
  -- Where each live slot of the result sits relative to the old buffer.
  have key : ∀ i, i < N → (Function.update m f0 true i && !(sp3 i).isEmpty) = true →
      (i = f0) ∨ (i = itemId) ∨ (i ≠ f0 ∧ i ≠ itemId ∧ sp3 i = sp i ∧ m i = true) := by
    intro i hiN' hm4i
    obtain ⟨hmask', _⟩ := (hm4 i).mp hm4i
    by_cases hif : i = f0
    · exact Or.inl hif
    by_cases hii : i = itemId
    · exact Or.inr (Or.inl hii)
    · refine Or.inr (Or.inr ⟨hif, hii, h3 i hii hif, ?_⟩)
      rw [hupd i hif] at hmask'
      exact hmask'
  constructor
  · constructor
    · -- inside
      intro i hiN' hm4i
      rcases key i hiN' hm4i with hif | hii | ⟨_, _, hsp, hmi⟩
      · subst hif
        exact Space.insideOf_trans hP2B hB
      · subst hii
        exact Space.insideOf_trans hP1B hB
      · rw [hsp]
        exact hInv.inside i hiN' hmi
    · -- pairwise disjointness
      intro i j hiN' hjN' hij hm4i hm4j
      have hPieceOld : ∀ l, l < N → l ≠ itemId → m l = true →
          ∀ u : Space, u.insideOf (sp itemId) → u.DisjointSp (sp l) := by
        intro l hlN hli hml u hu
        exact Space.DisjointSp.mono hu
          (Space.insideOf_refl_of_inside (hInv.inside l hlN hml))
          (hInv.disj itemId l hiN hlN (fun hcon => hli hcon.symm) him hml)
      rcases key i hiN' hm4i with hif | hii | ⟨hif, hii, hspi, hmi⟩ <;>
        rcases key j hjN' hm4j with hjf | hji | ⟨hjf, hji, hspj, hmj⟩
      · exact absurd (hif.trans hjf.symm) hij
      · rw [hif, hji, h1', h2']
        exact (Space.withLoHi_disjoint (le_refl msplit)).symm
      · rw [hif, hspj]
        exact hPieceOld j hjN' hji hmj (sp3 f0) hP2B
      · rw [hii, hjf, h1', h2']
        exact Space.withLoHi_disjoint (le_refl msplit)
      · exact absurd (hii.trans hji.symm) hij
      · rw [hii, hspj]
        exact hPieceOld j hjN' hji hmj (sp3 itemId) hP1B
      · rw [hjf, hspi]
        exact (hPieceOld i hiN' hii hmi (sp3 f0) hP2B).symm
      · rw [hji, hspi]
        exact (hPieceOld i hiN' hii hmi (sp3 itemId) hP1B).symm
      · rw [hspi, hspj]
        exact hInv.disj i j hiN' hjN' hij hmi hmj
    · -- volume conservation
      rw [sum_masked_and_notEmpty]
      have hpieces : (sp3 itemId).volume + (sp3 f0).volume = (sp itemId).volume := by
        rw [h1', h2', Space.volume_withLoHi, Space.volume_withLoHi,
          Space.volume_eq_len_mul_crossSec (sp itemId) axis, ← Nat.add_mul]
        congr 1
        omega
      have hitemMem : itemId ∈ Finset.range N := Finset.mem_range.mpr hiN
      have hf0Mem : f0 ∈ (Finset.range N).erase itemId :=
        Finset.mem_erase.mpr ⟨hfni, Finset.mem_range.mpr hf0N⟩
      have eNew : (∑ i ∈ Finset.range N,
            if Function.update m f0 true i = true then (sp3 i).volume else 0) =
          (sp3 itemId).volume + ((sp3 f0).volume +
            ∑ i ∈ ((Finset.range N).erase itemId).erase f0,
              if Function.update m f0 true i = true then (sp3 i).volume else 0) := by
        rw [← Finset.add_sum_erase _ _ hitemMem, ← Finset.add_sum_erase _ _ hf0Mem]
        congr 1
        · simp [hupd itemId (Ne.symm hfni), him]
        · congr 1
          simp [Function.update_same]
      have eOld : (∑ i ∈ Finset.range N,
            if m i = true then (sp i).volume else 0) =
          (sp itemId).volume + (0 +
            ∑ i ∈ ((Finset.range N).erase itemId).erase f0,
              if m i = true then (sp i).volume else 0) := by
        rw [← Finset.add_sum_erase _ _ hitemMem, ← Finset.add_sum_erase _ _ hf0Mem]
        congr 1
        · simp [him]
        · congr 1
          simp [hf0]
      have eRest : (∑ i ∈ ((Finset.range N).erase itemId).erase f0,
            if Function.update m f0 true i = true then (sp3 i).volume else 0) =
          ∑ i ∈ ((Finset.range N).erase itemId).erase f0,
            if m i = true then (sp i).volume else 0 := by
        apply Finset.sum_congr rfl
        intro i hi
        have hif : i ≠ f0 := (Finset.mem_erase.mp hi).1
        have hii : i ≠ itemId := (Finset.mem_erase.mp (Finset.mem_erase.mp hi).2).1
        rw [hupd i hif, h3 i hii hif]
      rw [eNew, eRest]
      have htot := hInv.total
      rw [eOld] at htot
      omega
    · -- positivity of live slots
      intro i _ hm4i
      obtain ⟨_, hempty⟩ := (hm4 i).mp hm4i
      exact (Space.isEmpty_eq_false_iff _).mp hempty
  constructor
  · -- the live count does not decrease
    apply liveCount_le_of_keep itemId f0 hf0N hf0
    · rw [hm4 f0]
      exact ⟨Function.update_same _ _ _, isEmpty_eq_false_of_allPos hP2pos⟩
    · intro j hjN hmj hji
      have hjf : j ≠ f0 := by
        intro hcon
        rw [hcon, hf0] at hmj
        exact absurd hmj (by simp)
      rw [hm4 j, hupd j hjf, h3 j hji hjf]
      exact ⟨hmj, isEmpty_eq_false_of_allPos (hInv.pos j hjN hmj)⟩
  · -- and grows by at most one
    calc liveCount N (fun i => Function.update m f0 true i && !(sp3 i).isEmpty)
        ≤ liveCount N (Function.update m f0 true) := liveCount_and_le _ _ _
      _ ≤ liveCount N m + 1 := liveCount_update_true_le _ _ _

theorem sum_list_range (n : Nat) (f : Nat → Nat) :
    ((List.range n).map f).sum = ∑ p ∈ Finset.range n, f p := by
  induction n with
  | zero => simp
  | succ m ih => rw [List.range_succ, List.map_append, List.sum_append,
      Finset.sum_range_succ, ih]; simp

/-- Monotonicity of the sub-interval boundaries `a + q * len / ns`. -/
theorem boundary_mono (a len ns : Nat) {q q' : Nat} (h : q ≤ q') :
    a + q * len / ns ≤ a + q' * len / ns :=
  Nat.add_le_add_left (Nat.div_le_div_right (Nat.mul_le_mul_right len h)) a

theorem boundary_last (a len ns : Nat) (hns : 0 < ns) :
    a + ns * len / ns = a + len := by
  rw [Nat.mul_div_cancel_left len hns]

theorem boundary_le_top (a len ns : Nat) (hns : 0 < ns) {q : Nat} (h : q ≤ ns) :
    a + q * len / ns ≤ a + len := by
  calc a + q * len / ns ≤ a + ns * len / ns := boundary_mono a len ns h
    _ = a + len := boundary_last a len ns hns

theorem boundary_penultimate_lt (a len ns : Nat) (hns : 0 < ns) (hlen : 0 < len) :
    a + (ns - 1) * len / ns < a + len := by
  apply Nat.add_lt_add_left
  rw [Nat.div_lt_iff_lt_mul hns]
  calc (ns - 1) * len < ns * len := by
        apply (Nat.mul_lt_mul_right hlen).mpr
        omega
    _ = len * ns := Nat.mul_comm ns len

/-- The `q`-th of `ns` equal sub-boxes of `B` along `axis`, with boundaries
`a + floor(q * len / ns)`. -/
def pieceBox (B : Space) (axis : Axis) (a len ns q : Nat) : Space :=
  B.withLoHi axis (a + q * len / ns) (a + (q + 1) * len / ns)

theorem pieceBox_insideOf {B : Space} {axis : Axis} {a len ns q : Nat}
    (hBB : B.insideOf B) (ha : B.lo axis = a) (hb : B.hi axis = a + len)
    (hns : 0 < ns) (hq : q + 1 ≤ ns) : (pieceBox B axis a len ns q).insideOf B := by
  apply Space.withLoHi_insideOf hBB
  · rw [ha]
    exact Nat.le_add_right a _
  · exact boundary_mono a len ns (Nat.le_succ q)
  · rw [hb]
    exact boundary_le_top a len ns hns hq

theorem pieceBox_disjoint {B : Space} {axis : Axis} {a len ns q q' : Nat}
    (h : q < q') :
    (pieceBox B axis a len ns q).DisjointSp (pieceBox B axis a len ns q') :=
  Space.withLoHi_disjoint (boundary_mono a len ns h)

theorem pieceBox_volume (B : Space) (axis : Axis) (a len ns q : Nat) :
    (pieceBox B axis a len ns q).volume =
      ((a + (q + 1) * len / ns) - (a + q * len / ns)) * B.crossSec axis := by
  unfold pieceBox
  rw [Space.volume_withLoHi]

theorem pieceBox_allPos {B : Space} {axis : Axis} {a len ns q : Nat}
    (hB : B.allPos) (h : a + q * len / ns < a + (q + 1) * len / ns) :
    (pieceBox B axis a len ns q).allPos :=
  Space.withLoHi_allPos hB h

/-- Invariant preservation and live-count bounds for a multi-split of count
`ns ≥ 2` followed by the empty-slot mask clearing, stated over the pointwise
description of the updated buffer. -/
theorem multiDesc_preserve (c : Space) (N : Nat) (sp sp3 : Nat → Space)
    (m m3 : Nat → Bool) (axis : Axis) (itemId ns len a : Nat) (js : List Nat)
    (hInv : SplitInv c N sp m)
    (hiN : itemId < N) (him : m itemId = true)
    (hns : 2 ≤ ns)
    (ha : a = (sp itemId).lo axis)
    (hlen : (sp itemId).hi axis = a + len)
    (hjslen : js.length = ns - 1)
    (hjsnodup : js.Nodup)
    (hjsmem : ∀ j ∈ js, j < N ∧ m j = false)
    (h1 : sp3 itemId = (sp itemId).withHi axis (a + len / ns))
    (hm3item : m3 itemId = true)
    (hosp : ∀ j, j ∉ js → j ≠ itemId → sp3 j = sp j)
    (hom : ∀ j, j ∉ js → m3 j = m j)
    (hjsp : ∀ p, p < ns - 1 →
      sp3 (js.getD p 0) = (sp itemId).withLoHi axis
        (a + (p + 1) * len / ns) (a + (p + 2) * len / ns) ∧
      m3 (js.getD p 0) = true) :
    SplitInv c N sp3 (fun i => m3 i && !(sp3 i).isEmpty) ∧
    liveCount N m ≤ liveCount N (fun i => m3 i && !(sp3 i).isEmpty) ∧
    liveCount N (fun i => m3 i && !(sp3 i).isEmpty) ≤ liveCount N m + (ns - 1) := by
  have hns0 : 0 < ns := by omega
  have hitemjs : itemId ∉ js := by
    intro hmem
    rw [(hjsmem itemId hmem).2] at him
    exact absurd him (by simp)
  have hB : (sp itemId).insideOf c := hInv.inside itemId hiN him
  have hBB : (sp itemId).insideOf (sp itemId) := Space.insideOf_refl_of_inside hB
  have hBpos : (sp itemId).allPos := hInv.pos itemId hiN him
  have hlenpos : 0 < len := by
    have := Space.allPos_lo_lt_hi hBpos axis
    omega
  have hpieceP : ∀ p, p < ns - 1 →
      sp3 (js.getD p 0) = pieceBox (sp itemId) axis a len ns (p + 1) := by
    intro p hp
    rw [(hjsp p hp).1]
    unfold pieceBox
    rw [(by omega : p + 1 + 1 = p + 2)]
  have h1' : sp3 itemId = pieceBox (sp itemId) axis a len ns 0 := by
    rw [h1, Space.withHi_eq_withLoHi, ← ha]
    unfold pieceBox
    rw [(by simp : a + 0 * len / ns = a), (by simp : (0 + 1) * len = len)]
  have hm4 : ∀ i, (m3 i && !(sp3 i).isEmpty) = true ↔
      (m3 i = true ∧ (sp3 i).isEmpty = false) := by
    intro i
    rw [Bool.and_eq_true, Bool.not_eq_true']
  have hgetmem : ∀ p, p < ns - 1 → js.getD p 0 ∈ js := by
    intro p hp
    have hplen : p < js.length := by omega
    rw [List.getD_eq_getElem js 0 hplen]
    exact List.getElem_mem _
  -- Where each live slot of the result sits relative to the old buffer.
  have key : ∀ i, i < N → (m3 i && !(sp3 i).isEmpty) = true →
      (i = itemId ∧ sp3 i = pieceBox (sp itemId) axis a len ns 0) ∨
      (∃ p, p < ns - 1 ∧ i = js.getD p 0 ∧
        sp3 i = pieceBox (sp itemId) axis a len ns (p + 1)) ∨
      (i ∉ js ∧ i ≠ itemId ∧ sp3 i = sp i ∧ m i = true) := by
    intro i hiN' hm4i
    obtain ⟨hm3i, _⟩ := (hm4 i).mp hm4i
    by_cases hii : i = itemId
    · exact Or.inl ⟨hii, hii ▸ h1'⟩
    by_cases hij : i ∈ js
    · obtain ⟨p, hplen, hpi⟩ := List.mem_iff_getElem.mp hij
      have hplt : p < ns - 1 := by omega
      have hpi' : i = js.getD p 0 := by
        rw [List.getD_eq_getElem js 0 hplen, hpi]
      exact Or.inr (Or.inl ⟨p, hplt, hpi', hpi' ▸ hpieceP p hplt⟩)
    · have hmi : m i = true := by
        rw [← hom i hij]
        exact hm3i
      exact Or.inr (Or.inr ⟨hij, hii, hosp i hij hii, hmi⟩)
  have hpieceInside : ∀ q, q + 1 ≤ ns →
      (pieceBox (sp itemId) axis a len ns q).insideOf (sp itemId) := by
    intro q hq
    exact pieceBox_insideOf hBB ha.symm hlen hns0 hq
  have hPieceOld : ∀ l, l < N → l ≠ itemId → m l = true →
      ∀ u : Space, u.insideOf (sp itemId) → u.DisjointSp (sp l) := by
    intro l hlN hli hml u hu
    exact Space.DisjointSp.mono hu
      (Space.insideOf_refl_of_inside (hInv.inside l hlN hml))
      (hInv.disj itemId l hiN hlN (fun hcon => hli hcon.symm) him hml)
  have hgetD_inj : ∀ p p', p < ns - 1 → p' < ns - 1 →
      js.getD p 0 = js.getD p' 0 → p = p' := by
    intro p p' hp hp' heq
    have hplen : p < js.length := by omega
    have hplen' : p' < js.length := by omega
    rw [List.getD_eq_getElem js 0 hplen, List.getD_eq_getElem js 0 hplen'] at heq
    exact (hjsnodup.getElem_inj_iff).mp heq
  constructor
  · constructor
    · -- inside
      intro i hiN' hm4i
      rcases key i hiN' hm4i with ⟨_, hsp⟩ | ⟨p, hp, _, hsp⟩ | ⟨_, _, hsp, hmi⟩
      · rw [hsp]
        exact Space.insideOf_trans (hpieceInside 0 (by omega)) hB
      · rw [hsp]
        exact Space.insideOf_trans (hpieceInside (p + 1) (by omega)) hB
      · rw [hsp]
        exact hInv.inside i hiN' hmi
    · -- pairwise disjointness
      intro i j hiN' hjN' hij hm4i hm4j
      have hqq : ∀ q q', q ≠ q' →
          (pieceBox (sp itemId) axis a len ns q).DisjointSp
            (pieceBox (sp itemId) axis a len ns q') := by
        intro q q' hne
        rcases Nat.lt_or_ge q q' with h | h
        · exact pieceBox_disjoint h
        · have : q' < q := by omega
          exact (pieceBox_disjoint this).symm
      rcases key i hiN' hm4i with ⟨hi1, hspi⟩ | ⟨p, hp, hi1, hspi⟩ |
          ⟨hinot, hii, hspi, hmi⟩ <;>
        rcases key j hjN' hm4j with ⟨hj1, hspj⟩ | ⟨p', hp', hj1, hspj⟩ |
          ⟨hjnot, hji, hspj, hmj⟩
      · exact absurd (hi1.trans hj1.symm) hij
      · rw [hspi, hspj]
        apply hqq
        omega
      · rw [hspi, hspj]
        exact hPieceOld j hjN' hji hmj _ (hpieceInside 0 (by omega))
      · rw [hspi, hspj]
        apply hqq
        omega
      · -- both are freshly allocated pieces
        rw [hspi, hspj]
        apply hqq
        intro hcon
        have hpp : p = p' := by omega
        rw [hpp] at hi1
        exact hij (hi1.trans hj1.symm)
      · rw [hspi, hspj]
        exact hPieceOld j hjN' hji hmj _ (hpieceInside (p + 1) (by omega))
      · rw [hspi, hspj]
        exact (hPieceOld i hiN' hii hmi _ (hpieceInside 0 (by omega))).symm
      · rw [hspi, hspj]
        exact (hPieceOld i hiN' hii hmi _ (hpieceInside (p' + 1) (by omega))).symm
      · rw [hspi, hspj]
        exact hInv.disj i j hiN' hjN' hij hmi hmj
    · -- volume conservation
      rw [sum_masked_and_notEmpty]
      have hSsub : insert itemId js.toFinset ⊆ Finset.range N := by
        intro i hi
        rcases Finset.mem_insert.mp hi with hi | hi
        · exact Finset.mem_range.mpr (hi ▸ hiN)
        · exact Finset.mem_range.mpr (hjsmem i (List.mem_toFinset.mp hi)).1
      have hnotin : itemId ∉ js.toFinset := fun hmem =>
        hitemjs (List.mem_toFinset.mp hmem)
      have split3 : ∀ g : Nat → Nat, ∑ i ∈ Finset.range N, g i =
          (∑ i ∈ Finset.range N \ insert itemId js.toFinset, g i) +
            (g itemId + ∑ i ∈ js.toFinset, g i) := by
        intro g
        rw [← Finset.sum_sdiff hSsub, Finset.sum_insert hnotin]
      have hrest : (∑ i ∈ Finset.range N \ insert itemId js.toFinset,
            if m3 i = true then (sp3 i).volume else 0) =
          ∑ i ∈ Finset.range N \ insert itemId js.toFinset,
            if m i = true then (sp i).volume else 0 := by
        apply Finset.sum_congr rfl
        intro i hi
        have hnot := (Finset.mem_sdiff.mp hi).2
        rw [Finset.mem_insert, not_or] at hnot
        obtain ⟨hii, hijs⟩ := hnot
        rw [List.mem_toFinset] at hijs
        rw [hom i hijs, hosp i hijs hii]
      have hjs0 : (∑ i ∈ js.toFinset,
            if m i = true then (sp i).volume else 0) = 0 := by
        apply Finset.sum_eq_zero
        intro i hi
        rw [(hjsmem i (List.mem_toFinset.mp hi)).2]
        simp
      have hjsnew : (∑ i ∈ js.toFinset,
            if m3 i = true then (sp3 i).volume else 0) =
          ∑ p ∈ Finset.range (ns - 1),
            (pieceBox (sp itemId) axis a len ns (p + 1)).volume := by
        rw [List.sum_toFinset _ hjsnodup]
        rw [← sum_list_range]
        congr 1
        apply List.ext_getElem
        · simp [hjslen]
        · intro p h1p h2p
          rw [List.getElem_map, List.getElem_map]
          have hplen : p < js.length := by simpa using h1p
          have hplt : p < ns - 1 := by omega
          rw [List.getElem_range]
          rw [← List.getD_eq_getElem js 0 hplen]
          rw [(hjsp p hplt).2, hpieceP p hplt]
          simp
      have harith : (sp3 itemId).volume +
          (∑ p ∈ Finset.range (ns - 1),
            (pieceBox (sp itemId) axis a len ns (p + 1)).volume) =
          (sp itemId).volume := by
        rw [h1']
        have hsucc : (∑ q ∈ Finset.range ns,
              (pieceBox (sp itemId) axis a len ns q).volume) =
            (∑ p ∈ Finset.range (ns - 1),
              (pieceBox (sp itemId) axis a len ns (p + 1)).volume) +
            (pieceBox (sp itemId) axis a len ns 0).volume := by
          rw [(by omega : ns = ns - 1 + 1), Finset.sum_range_succ']
          rw [(by omega : ns - 1 + 1 - 1 = ns - 1)]
        have htel : (∑ q ∈ Finset.range ns,
              (pieceBox (sp itemId) axis a len ns q).volume) =
            len * (sp itemId).crossSec axis := by
          have hterm : ∀ q, (pieceBox (sp itemId) axis a len ns q).volume =
              ((fun q => a + q * len / ns) (q + 1) -
                (fun q => a + q * len / ns) q) * (sp itemId).crossSec axis := by
            intro q
            rw [pieceBox_volume]
          calc (∑ q ∈ Finset.range ns, (pieceBox (sp itemId) axis a len ns q).volume)
              = ∑ q ∈ Finset.range ns,
                  ((fun q => a + q * len / ns) (q + 1) -
                    (fun q => a + q * len / ns) q) * (sp itemId).crossSec axis := by
                apply Finset.sum_congr rfl
                intro q _
                exact hterm q
            _ = (∑ q ∈ Finset.range ns,
                  ((fun q => a + q * len / ns) (q + 1) -
                    (fun q => a + q * len / ns) q)) * (sp itemId).crossSec axis := by
                rw [Finset.sum_mul]
            _ = len * (sp itemId).crossSec axis := by
                rw [sum_range_sub_telescope (fun q => a + q * len / ns)
                  (fun i => boundary_mono a len ns (Nat.le_succ i)) ns]
                congr 1
                rw [boundary_last a len ns hns0]
                simp
        have hvolB : (sp itemId).volume = len * (sp itemId).crossSec axis := by
          rw [Space.volume_eq_len_mul_crossSec (sp itemId) axis, hlen, ← ha]
          congr 1
          omega
        omega
      have htot := hInv.total
      rw [split3 (fun i => if m i = true then (sp i).volume else 0), hjs0] at htot
      rw [split3 (fun i => if m3 i = true then (sp3 i).volume else 0), hrest,
        hjsnew]
      simp only [hm3item, him, if_pos] at htot ⊢
      omega
    · -- positivity of live slots
      intro i _ hm4i
      obtain ⟨_, hempty⟩ := (hm4 i).mp hm4i
      exact (Space.isEmpty_eq_false_iff _).mp hempty
  constructor
  · -- the live count does not decrease
    have hlast : ns - 2 < ns - 1 := by omega
    have hj0mem : js.getD (ns - 2) 0 ∈ js := hgetmem (ns - 2) hlast
    obtain ⟨hj0N, hj0false⟩ := hjsmem _ hj0mem
    apply liveCount_le_of_keep itemId (js.getD (ns - 2) 0) hj0N hj0false
    · rw [hm4]
      refine ⟨(hjsp (ns - 2) hlast).2, ?_⟩
      rw [hpieceP (ns - 2) hlast]
      apply isEmpty_eq_false_of_allPos
      apply pieceBox_allPos hBpos
      rw [(by omega : ns - 2 + 1 = ns - 1), (by omega : ns - 1 + 1 = ns),
        boundary_last a len ns hns0]
      exact boundary_penultimate_lt a len ns hns0 hlenpos
    · intro j hjN hmj hji
      have hjnot : j ∉ js := by
        intro hmem
        rw [(hjsmem j hmem).2] at hmj
        exact absurd hmj (by simp)
      rw [hm4, hom j hjnot, hosp j hjnot hji]
      exact ⟨hmj, isEmpty_eq_false_of_allPos (hInv.pos j hjN hmj)⟩
  · -- and grows by at most ns - 1
    have hsub : (Finset.range N).filter
          (fun i => (m3 i && !(sp3 i).isEmpty) = true) ⊆
        ((Finset.range N).filter fun i => m i = true) ∪ js.toFinset := by
      intro i hi
      obtain ⟨hiN', hm4i⟩ := Finset.mem_filter.mp hi
      obtain ⟨hm3i, _⟩ := (hm4 i).mp hm4i
      by_cases hij : i ∈ js
      · exact Finset.mem_union_right _ (List.mem_toFinset.mpr hij)
      · apply Finset.mem_union_left
        rw [Finset.mem_filter]
        exact ⟨hiN', (hom i hij) ▸ hm3i⟩
    calc liveCount N (fun i => m3 i && !(sp3 i).isEmpty)
        ≤ (((Finset.range N).filter fun i => m i = true) ∪ js.toFinset).card :=
          Finset.card_le_card hsub
      _ ≤ ((Finset.range N).filter fun i => m i = true).card + js.toFinset.card :=
          Finset.card_union_le _ _
      _ ≤ liveCount N m + (ns - 1) := by
          rw [List.toFinset_card_of_nodup hjsnodup, hjslen]
          exact le_refl _

theorem Space.insideOf_lo_le_hi {s t : Space} (h : s.insideOf t) (a : Axis) :
    s.lo a ≤ s.hi a := by
  obtain ⟨hx, hy, hz⟩ := h
  cases a
  · exact hx.2.1
  · exact hy.2.1
  · exact hz.2.1

/-- A multi-split that draws `num_split = 1` is the identity on the buffer
and the mask: the original slot's upper bound is rewritten to
`a + (b - a) / 1 = b` and the inner loop performs no iteration. -/
theorem splitItemMultipleTimes_one (cfg : RandomConfig) (axis : Axis)
    (itemId : Nat) (sp : Nat → Space) (m : Nat → Bool) (splitKey : Nat)
    (hns : numSplitOf cfg splitKey = 1)
    (hab : (sp itemId).lo axis ≤ (sp itemId).hi axis) :
    splitItemMultipleTimes cfg (sp itemId) axis
      ((sp itemId).hi axis - (sp itemId).lo axis) itemId sp m splitKey = (sp, m) := by
  simp only [splitItemMultipleTimes, hns]
  rw [Nat.div_one, Nat.add_sub_cancel' hab, Space.withHi_hi_self,
    Function.update_eq_self]
  rfl

/-- One split along a given axis (item selection, mode selection, then the
chosen split), followed by the empty-slot clearing, preserves the invariant;
the live count does not decrease and stays below the capacity. -/
theorem splitAlongAxis_preserve (cfg : RandomConfig) (hv : ValidSplitCfg cfg)
    (axis : Axis) (sp : Nat → Space) (m : Nat → Bool) (key : Nat)
    (hInv : SplitInv cfg.container cfg.max_num_items sp m)
    (hcond : (liveCount cfg.max_num_items m : ℤ) <
      (cfg.max_num_items : ℤ) - (cfg.split_num_same_items : ℤ) + 1) :
    SplitInv cfg.container cfg.max_num_items
      (splitAlongAxis cfg axis sp m key).1
      (fun i => (splitAlongAxis cfg axis sp m key).2 i &&
        !((splitAlongAxis cfg axis sp m key).1 i).isEmpty) ∧
    liveCount cfg.max_num_items m ≤
      liveCount cfg.max_num_items
        (fun i => (splitAlongAxis cfg axis sp m key).2 i &&
          !((splitAlongAxis cfg axis sp m key).1 i).isEmpty) ∧
    liveCount cfg.max_num_items
        (fun i => (splitAlongAxis cfg axis sp m key).2 i &&
          !((splitAlongAxis cfg axis sp m key).1 i).isEmpty) ≤
      cfg.max_num_items := by
  have hcount_s : liveCount cfg.max_num_items m + cfg.split_num_same_items ≤
      cfg.max_num_items := by
    have hs := hv.snsi
    omega
  have hcN : liveCount cfg.max_num_items m < cfg.max_num_items := by
    have hs := hv.snsi
    omega
  have hc : 0 < cfg.container.volume := Space.volume_pos_of_allPos hv.dims
  obtain ⟨iw, hiwN, hmw, hposw⟩ := hInv.exists_live hc
  have hwEx : ∃ i, i < cfg.max_num_items ∧
      0 < (if m i = true then (item_from_space (sp i)).lenAlong axis else 0) := by
    refine ⟨iw, hiwN, ?_⟩
    rw [if_pos hmw, item_from_space_lenAlong]
    have := Space.allPos_lo_lt_hi hposw axis
    omega
  obtain ⟨hidN, hidw⟩ := weightedChoice_spec (rngSplit3 key).1 hwEx
  set itemId := weightedChoice cfg.max_num_items
    (fun i => if m i = true then (item_from_space (sp i)).lenAlong axis else 0)
    (rngSplit3 key).1 with hitemId
  have hmId : m itemId = true := by
    by_contra hcon
    rw [if_neg hcon] at hidw
    exact absurd hidw (by simp)
  rw [if_pos hmId] at hidw
  rw [item_from_space_lenAlong] at hidw
  have hne : freeSlots cfg.max_num_items m ≠ [] :=
    freeSlots_ne_nil_of_liveCount_lt hcN
  have hflen : (freeSlots cfg.max_num_items m).length +
      liveCount cfg.max_num_items m = cfg.max_num_items :=
    length_freeSlots_add_liveCount m cfg.max_num_items
  obtain ⟨r, hsplit⟩ : ∃ r, splitAlongAxis cfg axis sp m key = r := ⟨_, rfl⟩
  rw [hsplit]
  by_cases hmode :
      rngUnit (rngSplit3 key).2.2 < cfg.prob_split_one_item
  · -- binary split
    have hr : r = splitItemOnce cfg (sp itemId) axis
        ((sp itemId).hi axis - (sp itemId).lo axis) itemId sp m
        (rngSplit3 key).2.1 := by
      rw [← hsplit]
      simp only [splitAlongAxis, ← hitemId]
      rw [if_pos hmode]
    obtain ⟨h1, h2, h3, hm2⟩ := splitItemOnce_char cfg axis itemId
      ((sp itemId).hi axis - (sp itemId).lo axis) sp m (rngSplit3 key).2.1
      hmId hne
    rw [← hr] at h1 h2 h3 hm2
    obtain ⟨hf0N, hf0false⟩ := freeIndex_spec hne
    have hpadlt : 2 * padOf cfg.split_eps
        ((sp itemId).hi axis - (sp itemId).lo axis) <
        (sp itemId).hi axis - (sp itemId).lo axis :=
      two_mul_padOf_lt (le_of_lt hv.eps_pos) hv.eps_lt hidw
    have hrange : (sp itemId).lo axis +
        padOf cfg.split_eps ((sp itemId).hi axis - (sp itemId).lo axis) <
        (sp itemId).hi axis -
          padOf cfg.split_eps ((sp itemId).hi axis - (sp itemId).lo axis) := by
      omega
    have hms1 : (sp itemId).lo axis ≤ randint (rngSplit3 key).2.1
        ((sp itemId).lo axis +
          padOf cfg.split_eps ((sp itemId).hi axis - (sp itemId).lo axis))
        ((sp itemId).hi axis -
          padOf cfg.split_eps ((sp itemId).hi axis - (sp itemId).lo axis)) :=
      le_trans (Nat.le_add_right _ _) (randint_le_left _ _ _)
    have hms2 : randint (rngSplit3 key).2.1
        ((sp itemId).lo axis +
          padOf cfg.split_eps ((sp itemId).hi axis - (sp itemId).lo axis))
        ((sp itemId).hi axis -
          padOf cfg.split_eps ((sp itemId).hi axis - (sp itemId).lo axis)) <
        (sp itemId).hi axis :=
      lt_of_lt_of_le (randint_lt_right hrange) (Nat.sub_le _ _)
    rw [hm2]
    obtain ⟨hI, hlow, hup⟩ := binaryDesc_preserve cfg.container cfg.max_num_items
      sp _ m axis itemId (freeIndex cfg.max_num_items m) _ hInv hidN hmId
      hf0N hf0false hms1 hms2 h1 h2 h3
    refine ⟨hI, hlow, ?_⟩
    have hs := hv.snsi
    omega
  · -- multi split
    have hr : r = splitItemMultipleTimes cfg (sp itemId) axis
        ((sp itemId).hi axis - (sp itemId).lo axis) itemId sp m
        (rngSplit3 key).2.1 := by
      rw [← hsplit]
      simp only [splitAlongAxis, ← hitemId]
      rw [if_neg hmode]
    have hns1 : 1 ≤ numSplitOf cfg (rngSplit3 key).2.1 := numSplitOf_pos _ _
    have hnsle : numSplitOf cfg (rngSplit3 key).2.1 ≤ cfg.split_num_same_items :=
      numSplitOf_le _ _ hv.snsi
    have hlohi : (sp itemId).lo axis ≤ (sp itemId).hi axis :=
      Space.insideOf_lo_le_hi (hInv.inside itemId hidN hmId) axis
    by_cases hns2 : numSplitOf cfg (rngSplit3 key).2.1 = 1
    · -- a draw of 1 leaves the state unchanged
      rw [splitItemMultipleTimes_one cfg axis itemId sp m (rngSplit3 key).2.1
        hns2 hlohi] at hr
      rw [hr]
      have hmaskEq : ∀ i, i < cfg.max_num_items →
          ((m i && !(sp i).isEmpty) = true ↔ m i = true) := by
        intro i hiN
        constructor
        · intro h
          rw [Bool.and_eq_true] at h
          exact h.1
        · intro h
          rw [Bool.and_eq_true, Bool.not_eq_true']
          exact ⟨h, isEmpty_eq_false_of_allPos (hInv.pos i hiN h)⟩
      have hcntEq : liveCount cfg.max_num_items
          (fun i => m i && !(sp i).isEmpty) = liveCount cfg.max_num_items m := by
        unfold liveCount
        apply congrArg
        apply Finset.filter_congr
        intro i hi
        rw [Finset.mem_range] at hi
        simp only [eq_iff_iff]
        exact hmaskEq i hi
      refine ⟨?_, ?_, ?_⟩
      · constructor
        · intro i hiN hm4
          exact hInv.inside i hiN ((hmaskEq i hiN).mp hm4)
        · intro i j hiN hjN hij hm4i hm4j
          exact hInv.disj i j hiN hjN hij ((hmaskEq i hiN).mp hm4i)
            ((hmaskEq j hjN).mp hm4j)
        · rw [sum_masked_and_notEmpty]
          exact hInv.total
        · intro i hiN hm4
          exact hInv.pos i hiN ((hmaskEq i hiN).mp hm4)
      · rw [hcntEq]
      · rw [hcntEq]
        exact le_of_lt hcN
    · -- a draw of at least 2 allocates fresh slots
      have hns2' : 2 ≤ numSplitOf cfg (rngSplit3 key).2.1 := by omega
      have hfree : numSplitOf cfg (rngSplit3 key).2.1 - 1 ≤
          (freeSlots cfg.max_num_items m).length := by omega
      obtain ⟨h1, hmi3, hosp, hom, hjsp⟩ := splitItemMultipleTimes_char cfg axis
        itemId ((sp itemId).hi axis - (sp itemId).lo axis) sp m
        (rngSplit3 key).2.1 hmId hfree
      rw [← hr] at h1 hmi3 hosp hom hjsp
      have hjslen : ((freeSlots cfg.max_num_items m).take
          (numSplitOf cfg (rngSplit3 key).2.1 - 1)).length =
          numSplitOf cfg (rngSplit3 key).2.1 - 1 := by
        rw [List.length_take]
        omega
      have hjsnodup : ((freeSlots cfg.max_num_items m).take
          (numSplitOf cfg (rngSplit3 key).2.1 - 1)).Nodup :=
        (freeSlots_nodup _ _).sublist (List.take_sublist _ _)
      have hjsmem : ∀ j ∈ (freeSlots cfg.max_num_items m).take
          (numSplitOf cfg (rngSplit3 key).2.1 - 1),
          j < cfg.max_num_items ∧ m j = false := by
        intro j hj
        exact mem_freeSlots.mp (List.take_subset _ _ hj)
      have hgetDeq : ∀ p, p < numSplitOf cfg (rngSplit3 key).2.1 - 1 →
          ((freeSlots cfg.max_num_items m).take
            (numSplitOf cfg (rngSplit3 key).2.1 - 1)).getD p 0 =
          (freeSlots cfg.max_num_items m).getD p 0 := by
        intro p hp
        exact getD_take _ _ _ hp 0
      obtain ⟨hI, hlow, hup⟩ := multiDesc_preserve cfg.container cfg.max_num_items
        sp _ m _ axis itemId (numSplitOf cfg (rngSplit3 key).2.1)
        ((sp itemId).hi axis - (sp itemId).lo axis) ((sp itemId).lo axis)
        ((freeSlots cfg.max_num_items m).take
          (numSplitOf cfg (rngSplit3 key).2.1 - 1))
        hInv hidN hmId hns2' rfl (by omega) hjslen hjsnodup hjsmem h1 hmi3
        (fun j hj hji => hosp j hj hji) (fun j hj => hom j hj)
        (fun p hp => by
          rw [hgetDeq p hp]
          exact hjsp p hp)
      refine ⟨hI, hlow, ?_⟩
      omega

/-- Unfolding equation for one splitting round. -/
theorem splitSpaceIntoSubSpaces_eq (cfg : RandomConfig) (sp : Nat → Space)
    (m : Nat → Bool) (key : Nat) :
    splitSpaceIntoSubSpaces cfg sp m key =
      ((splitAlongAxis cfg (axisOfNat (randint (rngSplit key).1 0 3)) sp m
          (rngSplit key).2).1,
       fun i => (splitAlongAxis cfg (axisOfNat (randint (rngSplit key).1 0 3)) sp m
          (rngSplit key).2).2 i &&
         !((splitAlongAxis cfg (axisOfNat (randint (rngSplit key).1 0 3)) sp m
          (rngSplit key).2).1 i).isEmpty) := rfl

/-- One full splitting round (`_split_space_into_sub_spaces`) preserves the
invariant; the live count does not decrease and stays within capacity. -/
theorem roundPreserve (cfg : RandomConfig) (hv : ValidSplitCfg cfg)
    (sp : Nat → Space) (m : Nat → Bool) (key : Nat)
    (hInv : SplitInv cfg.container cfg.max_num_items sp m)
    (hcond : (liveCount cfg.max_num_items m : ℤ) <
      (cfg.max_num_items : ℤ) - (cfg.split_num_same_items : ℤ) + 1) :
    SplitInv cfg.container cfg.max_num_items
      (splitSpaceIntoSubSpaces cfg sp m key).1
      (splitSpaceIntoSubSpaces cfg sp m key).2 ∧
    liveCount cfg.max_num_items m ≤
      liveCount cfg.max_num_items (splitSpaceIntoSubSpaces cfg sp m key).2 ∧
    liveCount cfg.max_num_items (splitSpaceIntoSubSpaces cfg sp m key).2 ≤
      cfg.max_num_items := by
  rw [splitSpaceIntoSubSpaces_eq]
  exact splitAlongAxis_preserve cfg hv (axisOfNat (randint (rngSplit key).1 0 3))
    sp m (rngSplit key).2 hInv hcond

/-- The loop body (`body_fun`) preserves the invariant when the guard holds. -/
theorem splitBody_preserve (cfg : RandomConfig) (hv : ValidSplitCfg cfg)
    (st : SplitSt) (hInv : SplitInv cfg.container cfg.max_num_items st.spaces st.mask)
    (hcond : SplitCondHolds cfg st) :
    SplitInv cfg.container cfg.max_num_items
      (splitBody cfg st).spaces (splitBody cfg st).mask ∧
    liveCount cfg.max_num_items st.mask ≤
      liveCount cfg.max_num_items (splitBody cfg st).mask ∧
    liveCount cfg.max_num_items (splitBody cfg st).mask ≤ cfg.max_num_items :=
  roundPreserve cfg hv st.spaces st.mask (rngSplit st.key).2 hInv hcond

/-- Initial state of the splitting loop: the whole container in slot 0. -/
theorem init_inv (cfg : RandomConfig) (hv : ValidSplitCfg cfg)
    (hN : 0 < cfg.max_num_items) :
    SplitInv cfg.container cfg.max_num_items (initSpaces cfg) (initMask cfg) := by
  have hmaskIff : ∀ i, initMask cfg i = true ↔ i = 0 := by
    intro i
    simp [initMask, hN]
  have hcc : cfg.container.insideOf cfg.container := by
    unfold Space.insideOf
    refine ⟨⟨le_refl _, ?_, le_refl _⟩, ⟨le_refl _, ?_, le_refl _⟩,
      ⟨le_refl _, ?_, le_refl _⟩⟩ <;> simp [RandomConfig.container, make_container]
  constructor
  · intro i _ _
    exact hcc
  · intro i j _ _ hij hmi hmj
    rw [hmaskIff] at hmi hmj
    exact absurd (hmi.trans hmj.symm) hij
  · have hcongr : ∀ i ∈ Finset.range cfg.max_num_items,
        (if initMask cfg i = true then (initSpaces cfg i).volume else 0) =
        (if i = 0 then cfg.container.volume else 0) := by
      intro i _
      by_cases hi : i = 0
      · rw [if_pos ((hmaskIff i).mpr hi), if_pos hi]
        rfl
      · rw [if_neg (fun hcon => hi ((hmaskIff i).mp hcon)), if_neg hi]
    rw [Finset.sum_congr rfl hcongr]
    rw [Finset.sum_ite_eq' (Finset.range cfg.max_num_items) 0
      (fun _ => cfg.container.volume)]
    rw [if_pos (Finset.mem_range.mpr hN)]
  · intro i _ hmi
    exact hv.dims

/-- When the guard fails the loop returns its argument unchanged, for any
fuel: the body is entered only while the guard holds. -/
theorem splitLoop_eq_self (cfg : RandomConfig) (fuel : Nat) (st : SplitSt)
    (h : ¬ SplitCondHolds cfg st) : splitLoop cfg fuel st = st := by
  cases fuel with
  | zero => rfl
  | succ f => simp only [splitLoop, if_neg h]

/-- The invariant holds after running the loop for any amount of fuel. -/
theorem splitLoop_inv (cfg : RandomConfig) (hv : ValidSplitCfg cfg) :
    ∀ (fuel : Nat) (st : SplitSt),
      SplitInv cfg.container cfg.max_num_items st.spaces st.mask →
      SplitInv cfg.container cfg.max_num_items
        (splitLoop cfg fuel st).spaces (splitLoop cfg fuel st).mask := by
  intro fuel
  induction fuel with
  | zero => intro st h; exact h
  | succ f ih =>
      intro st h
      by_cases hc : SplitCondHolds cfg st
      · simp only [splitLoop, if_pos hc]
        exact ih _ (splitBody_preserve cfg hv st h hc).1
      · simp only [splitLoop, if_neg hc]
        exact h

/-- The invariant holds at every reachable state of the splitting loop. -/
theorem splitReachable_inv (cfg : RandomConfig) (hv : ValidSplitCfg cfg)
    (hN : 0 < cfg.max_num_items) :
    ∀ st, SplitReachable cfg st →
      SplitInv cfg.container cfg.max_num_items st.spaces st.mask := by
  intro st h
  induction h with
  | init key => exact init_inv cfg hv hN
  | step st h hc ih => exact (splitBody_preserve cfg hv st ih hc).1

/-! ### Live-count bounds of the two split operations -/

theorem liveCount_splitItemOnce_le (cfg : RandomConfig) (itemSpace : Space)
    (axis : Axis) (axisLen itemId : Nat) (sp : Nat → Space) (m : Nat → Bool)
    (splitKey : Nat) :
    liveCount cfg.max_num_items
      (splitItemOnce cfg itemSpace axis axisLen itemId sp m splitKey).2 ≤
    liveCount cfg.max_num_items m + 1 := by
  have h : (splitItemOnce cfg itemSpace axis axisLen itemId sp m splitKey).2 =
      Function.update m (freeIndex cfg.max_num_items m) true := rfl
  rw [h]
  exact liveCount_update_true_le _ _ _

theorem liveCount_foriAux_le (N : Nat) (axis : Axis) (a len ns itemId : Nat) :
    ∀ (cnt i : Nat) (sp : Nat → Space) (m : Nat → Bool),
      liveCount N (foriAux (multiSplitStep N axis a len ns itemId) cnt i (sp, m)).2 ≤
        liveCount N m + cnt := by
  intro cnt
  induction cnt with
  | zero =>
      intro i sp m
      exact Nat.le_add_right _ 0
  | succ c ih =>
      intro i sp m
      have hstep : foriAux (multiSplitStep N axis a len ns itemId) (c + 1) i (sp, m) =
          foriAux (multiSplitStep N axis a len ns itemId) c (i + 1)
            (multiSplitStep N axis a len ns itemId i (sp, m)) := rfl
      rw [hstep, multiSplitStep_eq]
      have h1 := ih (i + 1)
        (Function.update sp (freeIndex N m)
          ((sp itemId).withLoHi axis (a + i * len / ns) (a + (i + 1) * len / ns)))
        (Function.update m (freeIndex N m) true)
      have h2 := liveCount_update_true_le N m (freeIndex N m)
      omega

theorem liveCount_splitItemMultipleTimes_le (cfg : RandomConfig)
    (itemSpace : Space) (axis : Axis) (axisLen itemId : Nat) (sp : Nat → Space)
    (m : Nat → Bool) (splitKey : Nat) (hs : 1 ≤ cfg.split_num_same_items) :
    liveCount cfg.max_num_items
      (splitItemMultipleTimes cfg itemSpace axis axisLen itemId sp m splitKey).2 ≤
    liveCount cfg.max_num_items m + (cfg.split_num_same_items - 1) := by
  have h : splitItemMultipleTimes cfg itemSpace axis axisLen itemId sp m splitKey =
      foriAux (multiSplitStep cfg.max_num_items axis (itemSpace.lo axis) axisLen
          (numSplitOf cfg splitKey) itemId)
        (numSplitOf cfg splitKey - 1) 1
        (Function.update sp itemId
          ((sp itemId).withHi axis
            (itemSpace.lo axis + axisLen / numSplitOf cfg splitKey)), m) := rfl
  rw [h]
  have h1 := liveCount_foriAux_le cfg.max_num_items axis (itemSpace.lo axis)
    axisLen (numSplitOf cfg splitKey) itemId (numSplitOf cfg splitKey - 1) 1
    (Function.update sp itemId
      ((sp itemId).withHi axis
        (itemSpace.lo axis + axisLen / numSplitOf cfg splitKey))) m
  have h2 := numSplitOf_le cfg splitKey hs
  omega

/-! ### Projection equations for the assembled solved instance -/

theorem splitContainerIntoItemsSpaces_fst (cfg : RandomConfig) (fuel key : Nat) :
    (splitContainerIntoItemsSpaces cfg fuel key).1 =
      (splitLoop cfg fuel
        { spaces := initSpaces cfg, mask := initMask cfg, key := key }).spaces := rfl

theorem splitContainerIntoItemsSpaces_snd (cfg : RandomConfig) (fuel key : Nat) :
    (splitContainerIntoItemsSpaces cfg fuel key).2 =
      (splitLoop cfg fuel
        { spaces := initSpaces cfg, mask := initMask cfg, key := key }).mask := rfl

theorem generateSolvedInstance_items (cfg : RandomConfig) (fuel key : Nat) :
    (generateSolvedInstance cfg fuel key).items =
      fun i => item_from_space
        ((splitContainerIntoItemsSpaces cfg fuel (rngSplit key).2).1 i) := rfl

theorem generateSolvedInstance_items_mask (cfg : RandomConfig) (fuel key : Nat) :
    (generateSolvedInstance cfg fuel key).items_mask =
      (splitContainerIntoItemsSpaces cfg fuel (rngSplit key).2).2 := rfl

theorem generateSolvedInstance_items_location (cfg : RandomConfig) (fuel key : Nat) :
    (generateSolvedInstance cfg fuel key).items_location =
      fun i => location_from_space
        ((splitContainerIntoItemsSpaces cfg fuel (rngSplit key).2).1 i) := rfl

theorem generateSolvedInstance_items_placed (cfg : RandomConfig) (fuel key : Nat) :
    (generateSolvedInstance cfg fuel key).items_placed =
      (splitContainerIntoItemsSpaces cfg fuel (rngSplit key).2).2 := rfl

/-- Reassembling a well-formed space from its location and item extents. -/
theorem itemBox_recover (s : Space) (hx : s.x1 ≤ s.x2) (hy : s.y1 ≤ s.y2)
    (hz : s.z1 ≤ s.z2) :
    Space.mk (location_from_space s).x
      ((location_from_space s).x + (item_from_space s).x_len)
      (location_from_space s).y
      ((location_from_space s).y + (item_from_space s).y_len)
      (location_from_space s).z
      ((location_from_space s).z + (item_from_space s).z_len) = s := by
  cases s
  simp only [location_from_space, item_from_space, Space.mk.injEq, true_and]
  dsimp only at hx hy hz
  omega

theorem randomGenerateSolution_eq (cfg : RandomConfig) (fuel key : Nat) :
    randomGenerateSolution cfg fuel key = generateSolvedInstance cfg fuel key := rfl

/-! ### Example configurations used as witnesses -/

/-- A small valid configuration. -/
def sampleCfg : RandomConfig :=
  { max_num_items := 5, max_num_ems := 10, split_eps := 1 / 4,
    prob_split_one_item := 1 / 2, split_num_same_items := 2,
    container_dims := (4, 3, 2) }

/-- A configuration with a zero-capacity item buffer. -/
def cfgNoItems : RandomConfig :=
  { max_num_items := 0, max_num_ems := 1, split_eps := 1 / 4,
    prob_split_one_item := 1 / 2, split_num_same_items := 1,
    container_dims := (1, 1, 1) }

/-- A concrete solved instance (single item filling a unit container). -/
def solvedExample : BPState :=
  generateSolvedInstance
    { max_num_items := 1, max_num_ems := 1, split_eps := 1 / 4,
      prob_split_one_item := 1 / 2, split_num_same_items := 1,
      container_dims := (1, 1, 1) } 1 0

/-! ### The claims -/

/-- C1 (amended: additionally requires `max_num_items ≥ 1`; with a
zero-capacity buffer the generated instance has no items at all, see the
counterexample).  For every configuration with `split_eps ∈ (0, 0.5)`,
`prob_split_one_item ∈ [0, 1]`, `split_num_same_items ≥ 1`, positive
container dimensions and at least one item slot, and for every seed (and any
fuel bound on the splitting loop), the solved instance produced by
`generate_solution` satisfies: the spaces (location + extents) of all
masked-true items are pairwise non-overlapping, each lies within the
container bounds, and the sum of their volumes equals the container volume
exactly. -/
theorem claim_C1_amended (cfg : RandomConfig) (fuel key : Nat)
    (heps1 : 0 < cfg.split_eps) (heps2 : cfg.split_eps < 1 / 2)
    (hprob1 : 0 ≤ cfg.prob_split_one_item) (hprob2 : cfg.prob_split_one_item ≤ 1)
    (hs : 1 ≤ cfg.split_num_same_items)
    (hd1 : 0 < cfg.container_dims.1) (hd2 : 0 < cfg.container_dims.2.1)
    (hd3 : 0 < cfg.container_dims.2.2) (hN : 0 < cfg.max_num_items) :
    (∀ i j, i < cfg.max_num_items → j < cfg.max_num_items → i ≠ j →
      (randomGenerateSolution cfg fuel key).items_mask i = true →
      (randomGenerateSolution cfg fuel key).items_mask j = true →
      Space.DisjointSp (itemBox (randomGenerateSolution cfg fuel key) i)
        (itemBox (randomGenerateSolution cfg fuel key) j)) ∧
    (∀ i, i < cfg.max_num_items →
      (randomGenerateSolution cfg fuel key).items_mask i = true →
      (itemBox (randomGenerateSolution cfg fuel key) i).insideOf cfg.container) ∧
    (∑ i ∈ Finset.range cfg.max_num_items,
      if (randomGenerateSolution cfg fuel key).items_mask i = true
      then ((randomGenerateSolution cfg fuel key).items i).volume else 0) =
      cfg.container.volume := by
  have hv : ValidSplitCfg cfg := ⟨heps1, heps2, hs, ⟨hd1, hd2, hd3⟩⟩
  have hInv := splitLoop_inv cfg hv fuel
    { spaces := initSpaces cfg, mask := initMask cfg, key := (rngSplit key).2 }
    (init_inv cfg hv hN)
  have hmaskEq : (randomGenerateSolution cfg fuel key).items_mask =
      (splitLoop cfg fuel
        { spaces := initSpaces cfg, mask := initMask cfg,
          key := (rngSplit key).2 }).mask := by
    rw [randomGenerateSolution_eq, generateSolvedInstance_items_mask,
      splitContainerIntoItemsSpaces_snd]
  have hitemsEq : (randomGenerateSolution cfg fuel key).items =
      fun i => item_from_space
        ((splitLoop cfg fuel
          { spaces := initSpaces cfg, mask := initMask cfg,
            key := (rngSplit key).2 }).spaces i) := by
    rw [randomGenerateSolution_eq, generateSolvedInstance_items,
      splitContainerIntoItemsSpaces_fst]
  have hbox : ∀ i, i < cfg.max_num_items →
      (splitLoop cfg fuel
        { spaces := initSpaces cfg, mask := initMask cfg,
          key := (rngSplit key).2 }).mask i = true →
      itemBox (randomGenerateSolution cfg fuel key) i =
        (splitLoop cfg fuel
          { spaces := initSpaces cfg, mask := initMask cfg,
            key := (rngSplit key).2 }).spaces i := by
    intro i hiN hmi
    have hins := hInv.inside i hiN hmi
    unfold itemBox
    rw [hitemsEq]
    have hlocEq : (randomGenerateSolution cfg fuel key).items_location =
        fun i => location_from_space
          ((splitLoop cfg fuel
            { spaces := initSpaces cfg, mask := initMask cfg,
              key := (rngSplit key).2 }).spaces i) := by
      rw [randomGenerateSolution_eq, generateSolvedInstance_items_location,
        splitContainerIntoItemsSpaces_fst]
    rw [hlocEq]
    exact itemBox_recover _ hins.1.2.1 hins.2.1.2.1 hins.2.2.2.1
  refine ⟨?_, ?_, ?_⟩
  · intro i j hiN hjN hij hmi hmj
    rw [hmaskEq] at hmi hmj
    rw [hbox i hiN hmi, hbox j hjN hmj]
    exact hInv.disj i j hiN hjN hij hmi hmj
  · intro i hiN hmi
    rw [hmaskEq] at hmi
    rw [hbox i hiN hmi]
    exact hInv.inside i hiN hmi
  · rw [hmaskEq, hitemsEq]
    rw [← hInv.total]
    apply Finset.sum_congr rfl
    intro i _
    by_cases hmi : (splitLoop cfg fuel
        { spaces := initSpaces cfg, mask := initMask cfg,
          key := (rngSplit key).2 }).mask i = true
    · rw [if_pos hmi, if_pos hmi]
      rfl
    · rw [if_neg hmi, if_neg hmi]

/-- C1 witness: the amended theorem applied to a concrete configuration. -/
theorem claim_C1_witness :
    (0 < sampleCfg.split_eps ∧ sampleCfg.split_eps < 1 / 2 ∧
      0 ≤ sampleCfg.prob_split_one_item ∧ sampleCfg.prob_split_one_item ≤ 1 ∧
      1 ≤ sampleCfg.split_num_same_items ∧ 0 < sampleCfg.container_dims.1 ∧
      0 < sampleCfg.container_dims.2.1 ∧ 0 < sampleCfg.container_dims.2.2 ∧
      0 < sampleCfg.max_num_items) ∧
    (∑ i ∈ Finset.range sampleCfg.max_num_items,
      if (randomGenerateSolution sampleCfg 6 0).items_mask i = true
      then ((randomGenerateSolution sampleCfg 6 0).items i).volume else 0) =
      sampleCfg.container.volume :=
  ⟨⟨by norm_num [sampleCfg], by norm_num [sampleCfg], by norm_num [sampleCfg],
    by norm_num [sampleCfg], by decide, by decide, by decide,
    by decide, by decide⟩,
    (claim_C1_amended sampleCfg 6 0 (by norm_num [sampleCfg])
      (by norm_num [sampleCfg]) (by norm_num [sampleCfg])
      (by norm_num [sampleCfg]) (by decide) (by decide) (by decide) (by decide)
      (by decide)).2.2⟩

/-- C1 counterexample: the claim as stated, without a lower bound on
`max_num_items`, fails at a configuration with a zero-capacity item buffer:
the splitting loop never runs, no item is masked, and the masked volume sum
is `0` while the container volume is `1`. -/
theorem claim_C1_counterexample :
    0 < cfgNoItems.split_eps ∧ cfgNoItems.split_eps < 1 / 2 ∧
    0 ≤ cfgNoItems.prob_split_one_item ∧ cfgNoItems.prob_split_one_item ≤ 1 ∧
    1 ≤ cfgNoItems.split_num_same_items ∧
    0 < cfgNoItems.container_dims.1 ∧ 0 < cfgNoItems.container_dims.2.1 ∧
    0 < cfgNoItems.container_dims.2.2 ∧
    ¬ ((∑ i ∈ Finset.range cfgNoItems.max_num_items,
        if (randomGenerateSolution cfgNoItems 5 0).items_mask i = true
        then ((randomGenerateSolution cfgNoItems 5 0).items i).volume else 0) =
      cfgNoItems.container.volume) := by
  refine ⟨by norm_num [cfgNoItems], by norm_num [cfgNoItems],
    by norm_num [cfgNoItems], by norm_num [cfgNoItems], by decide, by decide,
    by decide, by decide, ?_⟩
  decide

/-- C2: the live count is bounded by `max_num_items` at every state (during
and after the loop); the loop returns its state unchanged whenever the guard
fails, and the guard is exactly
`live count < max_num_items - split_num_same_items + 1`; a binary split
round raises the live count by at most `1` and a multi-split round by at
most `split_num_same_items - 1`. -/
theorem claim_C2 (cfg : RandomConfig) (hs : 1 ≤ cfg.split_num_same_items) :
    (∀ st : SplitSt, liveCount cfg.max_num_items st.mask ≤ cfg.max_num_items) ∧
    (∀ fuel st, liveCount cfg.max_num_items (splitLoop cfg fuel st).mask ≤
      cfg.max_num_items) ∧
    (∀ fuel st, ¬ SplitCondHolds cfg st → splitLoop cfg fuel st = st) ∧
    (∀ st, SplitCondHolds cfg st ↔
      (liveCount cfg.max_num_items st.mask : ℤ) <
        (cfg.max_num_items : ℤ) - (cfg.split_num_same_items : ℤ) + 1) ∧
    (∀ itemSpace axis axisLen itemId sp m splitKey,
      liveCount cfg.max_num_items
        (splitItemOnce cfg itemSpace axis axisLen itemId sp m splitKey).2 ≤
      liveCount cfg.max_num_items m + 1) ∧
    (∀ itemSpace axis axisLen itemId sp m splitKey,
      liveCount cfg.max_num_items
        (splitItemMultipleTimes cfg itemSpace axis axisLen itemId sp m splitKey).2 ≤
      liveCount cfg.max_num_items m + (cfg.split_num_same_items - 1)) :=
  ⟨fun st => liveCount_le _ _,
   fun fuel st => liveCount_le _ _,
   fun fuel st h => splitLoop_eq_self cfg fuel st h,
   fun _ => Iff.rfl,
   fun itemSpace axis axisLen itemId sp m splitKey =>
     liveCount_splitItemOnce_le cfg itemSpace axis axisLen itemId sp m splitKey,
   fun itemSpace axis axisLen itemId sp m splitKey =>
     liveCount_splitItemMultipleTimes_le cfg itemSpace axis axisLen itemId sp m
       splitKey hs⟩

/-- C2 witness: at a fully live mask the guard fails, so the loop is the
identity. -/
theorem claim_C2_witness :
    1 ≤ sampleCfg.split_num_same_items ∧
    splitLoop sampleCfg 3
      { spaces := initSpaces sampleCfg, mask := fun _ => true, key := 0 } =
      { spaces := initSpaces sampleCfg, mask := fun _ => true, key := 0 } :=
  ⟨by decide,
    (claim_C2 sampleCfg (by decide)).2.2.1 3
      { spaces := initSpaces sampleCfg, mask := fun _ => true, key := 0 }
      (by decide)⟩

/-- C3: for every valid configuration, every reachable state of the
splitting loop and every round applied to it (i.e. a round the loop actually
executes: the guard holds), the live count after the round is at least the
live count before it. -/
theorem claim_C3 (cfg : RandomConfig)
    (heps1 : 0 < cfg.split_eps) (heps2 : cfg.split_eps < 1 / 2)
    (hs : 1 ≤ cfg.split_num_same_items)
    (hd1 : 0 < cfg.container_dims.1) (hd2 : 0 < cfg.container_dims.2.1)
    (hd3 : 0 < cfg.container_dims.2.2) (hN : 0 < cfg.max_num_items) :
    ∀ st, SplitReachable cfg st → SplitCondHolds cfg st →
      liveCount cfg.max_num_items st.mask ≤
        liveCount cfg.max_num_items (splitBody cfg st).mask := by
  intro st hreach hcond
  have hv : ValidSplitCfg cfg := ⟨heps1, heps2, hs, ⟨hd1, hd2, hd3⟩⟩
  exact (splitBody_preserve cfg hv st
    (splitReachable_inv cfg hv hN st hreach) hcond).2.1

/-- C3 witness: the initial state of the sample configuration. -/
theorem claim_C3_witness :
    (0 < sampleCfg.split_eps ∧ sampleCfg.split_eps < 1 / 2 ∧
      1 ≤ sampleCfg.split_num_same_items ∧ 0 < sampleCfg.container_dims.1 ∧
      0 < sampleCfg.container_dims.2.1 ∧ 0 < sampleCfg.container_dims.2.2 ∧
      0 < sampleCfg.max_num_items) ∧
    SplitCondHolds sampleCfg
      { spaces := initSpaces sampleCfg, mask := initMask sampleCfg, key := 0 } ∧
    liveCount sampleCfg.max_num_items (initMask sampleCfg) ≤
      liveCount sampleCfg.max_num_items
        (splitBody sampleCfg
          { spaces := initSpaces sampleCfg, mask := initMask sampleCfg,
            key := 0 }).mask :=
  ⟨⟨by norm_num [sampleCfg], by norm_num [sampleCfg], by decide, by decide,
    by decide, by decide, by decide⟩, by decide,
    claim_C3 sampleCfg (by norm_num [sampleCfg]) (by norm_num [sampleCfg])
      (by decide) (by decide) (by decide) (by decide) (by decide)
      { spaces := initSpaces sampleCfg, mask := initMask sampleCfg, key := 0 }
      (SplitReachable.init 0) (by decide)⟩

/-- C4 counterexample: `_unpack_items` mutates its input.  The Python
`State` is a mutable record and the three assignments update the object the
caller passed in; the function returns that very object.  At the reference
level: the returned reference equals the input reference, and the record
stored at that reference has lost its pre-call `items_placed` value. -/
theorem claim_C4_counterexample :
    (unpackItemsRef 1 1 (fun _ => solvedExample) 0).2 = 0 ∧
    solvedExample.items_placed 0 = true ∧
    ((unpackItemsRef 1 1 (fun _ => solvedExample) 0).1 0).items_placed 0 = false := by
  refine ⟨rfl, ?_, ?_⟩
  · decide
  · decide

/-- C4 (amended: `_unpack_items` mutates the given record in place and
returns the same reference, rather than deriving a distinct record while the
input keeps its pre-call `items_placed` / `items_location` / `ems_mask`
values).  The call updates the record at the given reference — placed flags
cleared, locations zeroed, EMS mask collapsed to a single live entry, item
extents and item mask untouched — and leaves every other reference
unchanged. -/
theorem claim_C4_amended (maxI maxE : Nat) (heap : Nat → BPState) (r : Nat) :
    (unpackItemsRef maxI maxE heap r).2 = r ∧
    ((unpackItemsRef maxI maxE heap r).1 r).items_placed = (fun _ => false) ∧
    ((unpackItemsRef maxI maxE heap r).1 r).items_location =
      (fun _ => { x := 0, y := 0, z := 0 : Location }) ∧
    ((unpackItemsRef maxI maxE heap r).1 r).ems_mask =
      (fun i => decide (i = 0 ∧ 0 < maxE)) ∧
    ((unpackItemsRef maxI maxE heap r).1 r).items = (heap r).items ∧
    ((unpackItemsRef maxI maxE heap r).1 r).items_mask = (heap r).items_mask ∧
    (∀ r2, r2 ≠ r → (unpackItemsRef maxI maxE heap r).1 r2 = heap r2) := by
  have hr : (unpackItemsRef maxI maxE heap r).1 r =
      unpackItems maxI maxE (heap r) := Function.update_same _ _ _
  refine ⟨rfl, ?_, ?_, ?_, ?_, ?_, fun r2 h => Function.update_noteq h _ _⟩
  all_goals rw [hr]; rfl

/-- C4 witness: the frame part of the amended theorem at a concrete heap. -/
theorem claim_C4_witness :
    (1 : Nat) ≠ 0 ∧
    (unpackItemsRef 1 1 (fun _ => solvedExample) 0).1 1 = solvedExample :=
  ⟨by decide,
    (claim_C4_amended 1 1 (fun _ => solvedExample) 0).2.2.2.2.2.2 1 (by decide)⟩

/-- C5: a multi-split drawing count `n`, applied to slot `itemId` whose
chosen-axis interval is `[a, b]` (so the passed axis length is `b - a`),
shortens the original slot to `[a, a + (b-a)/n]`, allocates the first
`n - 1` free slots and marks them occupied, the `p`-th receiving interval
`[a + (p+1)*(b-a)/n, a + (p+2)*(b-a)/n]` (a full copy of the original box on
the other two axes), and changes nothing else. -/
theorem claim_C5 (cfg : RandomConfig) (axis : Axis) (itemId n : Nat)
    (sp : Nat → Space) (m : Nat → Bool) (splitKey : Nat)
    (hn : numSplitOf cfg splitKey = n)
    (hmask : m itemId = true)
    (hfree : n - 1 ≤ (freeSlots cfg.max_num_items m).length) :
    (splitItemMultipleTimes cfg (sp itemId) axis
        ((sp itemId).hi axis - (sp itemId).lo axis) itemId sp m splitKey).1
        itemId =
      (sp itemId).withHi axis
        ((sp itemId).lo axis +
          ((sp itemId).hi axis - (sp itemId).lo axis) / n) ∧
    ((freeSlots cfg.max_num_items m).take (n - 1)).length = n - 1 ∧
    ((freeSlots cfg.max_num_items m).take (n - 1)).Nodup ∧
    (∀ j ∈ (freeSlots cfg.max_num_items m).take (n - 1),
      m j = false ∧
      (splitItemMultipleTimes cfg (sp itemId) axis
        ((sp itemId).hi axis - (sp itemId).lo axis) itemId sp m splitKey).2
        j = true) ∧
    (∀ p, p < n - 1 →
      (splitItemMultipleTimes cfg (sp itemId) axis
          ((sp itemId).hi axis - (sp itemId).lo axis) itemId sp m splitKey).1
        (((freeSlots cfg.max_num_items m).take (n - 1)).getD p 0) =
      (sp itemId).withLoHi axis
        ((sp itemId).lo axis +
          (p + 1) * ((sp itemId).hi axis - (sp itemId).lo axis) / n)
        ((sp itemId).lo axis +
          (p + 2) * ((sp itemId).hi axis - (sp itemId).lo axis) / n)) ∧
    (∀ j, j ∉ (freeSlots cfg.max_num_items m).take (n - 1) → j ≠ itemId →
      (splitItemMultipleTimes cfg (sp itemId) axis
        ((sp itemId).hi axis - (sp itemId).lo axis) itemId sp m splitKey).1
        j = sp j) ∧
    (∀ j, j ∉ (freeSlots cfg.max_num_items m).take (n - 1) →
      (splitItemMultipleTimes cfg (sp itemId) axis
        ((sp itemId).hi axis - (sp itemId).lo axis) itemId sp m splitKey).2
        j = m j) := by
  subst hn
  obtain ⟨h1, _, h3, h4, h5⟩ := splitItemMultipleTimes_char cfg axis itemId
    ((sp itemId).hi axis - (sp itemId).lo axis) sp m splitKey hmask hfree
  refine ⟨h1, ?_, ?_, ?_, ?_, h3, h4⟩
  · rw [List.length_take]
    omega
  · exact List.Nodup.sublist (List.take_sublist _ _) (freeSlots_nodup _ _)
  · intro j hj
    obtain ⟨p, hp, hje⟩ := List.mem_iff_getElem.mp hj
    have hplen : p < numSplitOf cfg splitKey - 1 := by
      rw [List.length_take] at hp
      omega
    have hjd : (freeSlots cfg.max_num_items m).getD p 0 = j := by
      rw [← getD_take (freeSlots cfg.max_num_items m)
        (numSplitOf cfg splitKey - 1) p hplen 0]
      rw [List.getD_eq_getElem _ _ hp]
      exact hje
    refine ⟨(mem_freeSlots.mp (List.take_subset _ _ hj)).2, ?_⟩
    have hm := (h5 p hplen).2
    rw [hjd] at hm
    exact hm
  · intro p hp
    rw [getD_take (freeSlots cfg.max_num_items m)
      (numSplitOf cfg splitKey - 1) p hp 0]
    exact (h5 p hp).1

/-- C5 witness: a draw of `n = 2` on the sample configuration. -/
theorem claim_C5_witness :
    numSplitOf sampleCfg 1 = 2 ∧ (fun i => decide (i = 0)) 0 = true ∧
    2 - 1 ≤ (freeSlots sampleCfg.max_num_items (fun i => decide (i = 0))).length ∧
    ((freeSlots sampleCfg.max_num_items
      (fun i => decide (i = 0))).take (2 - 1)).length = 2 - 1 :=
  ⟨by decide, by decide, by decide,
    (claim_C5 sampleCfg Axis.x 0 2 (fun _ => sampleCfg.container)
      (fun i => decide (i = 0)) 1 (by decide) (by decide) (by decide)).2.1⟩

/-- C6: the state obtained by `__call__` (the solved instance unpacked) has
all placed flags false, all locations zero, and item extents and item mask
equal to the solved instance's, for every configuration, fuel and seed. -/
theorem claim_C6 (cfg : RandomConfig) (fuel key : Nat) :
    (∀ i, (randomCall cfg fuel key).items_placed i = false) ∧
    (∀ i, (randomCall cfg fuel key).items_location i = { x := 0, y := 0, z := 0 }) ∧
    (randomCall cfg fuel key).items = (randomGenerateSolution cfg fuel key).items ∧
    (randomCall cfg fuel key).items_mask =
      (randomGenerateSolution cfg fuel key).items_mask :=
  ⟨fun _ => rfl, fun _ => rfl, rfl, rfl⟩

/-- C9: determinism as a two-run property — the same configuration and equal
seeds give identical item extents, locations and masks, and an identical
reset state. -/
theorem claim_C9 (cfg : RandomConfig) (fuel k1 k2 : Nat) (hk : k1 = k2) :
    (randomGenerateSolution cfg fuel k1).items =
      (randomGenerateSolution cfg fuel k2).items ∧
    (randomGenerateSolution cfg fuel k1).items_location =
      (randomGenerateSolution cfg fuel k2).items_location ∧
    (randomGenerateSolution cfg fuel k1).items_mask =
      (randomGenerateSolution cfg fuel k2).items_mask ∧
    randomCall cfg fuel k1 = randomCall cfg fuel k2 := by
  subst hk
  exact ⟨rfl, rfl, rfl, rfl⟩

/-- C9 witness: two runs on the sample configuration with seed `0`. -/
theorem claim_C9_witness :
    (0 : Nat) = 0 ∧
    (randomGenerateSolution sampleCfg 1 0).items =
      (randomGenerateSolution sampleCfg 1 0).items :=
  ⟨rfl, (claim_C9 sampleCfg 1 0 0 rfl).1⟩

/-- C10: a multi-split that draws count `n = 1` is the identity on the slot
buffer and the mask: the original slot's upper bound is rewritten to
`a + (b - a) / 1 = b` and no new slot is marked occupied. -/
theorem claim_C10 (cfg : RandomConfig) (axis : Axis) (itemId : Nat)
    (sp : Nat → Space) (m : Nat → Bool) (splitKey : Nat)
    (hns : numSplitOf cfg splitKey = 1)
    (hab : (sp itemId).lo axis ≤ (sp itemId).hi axis) :
    splitItemMultipleTimes cfg (sp itemId) axis
      ((sp itemId).hi axis - (sp itemId).lo axis) itemId sp m splitKey =
      (sp, m) :=
  splitItemMultipleTimes_one cfg axis itemId sp m splitKey hns hab

/-- C10 witness: a draw of `n = 1` on the sample configuration. -/
theorem claim_C10_witness :
    numSplitOf sampleCfg 2 = 1 ∧
    ((fun _ => sampleCfg.container : Nat → Space) 0).lo Axis.x ≤
      ((fun _ => sampleCfg.container : Nat → Space) 0).hi Axis.x ∧
    splitItemMultipleTimes sampleCfg
      ((fun _ => sampleCfg.container : Nat → Space) 0) Axis.x
      (((fun _ => sampleCfg.container : Nat → Space) 0).hi Axis.x -
        ((fun _ => sampleCfg.container : Nat → Space) 0).lo Axis.x)
      0 (fun _ => sampleCfg.container) (fun i => decide (i = 0)) 2 =
      (fun _ => sampleCfg.container, fun i => decide (i = 0)) :=
  ⟨by decide, by decide,
    claim_C10 sampleCfg Axis.x 0 (fun _ => sampleCfg.container)
      (fun i => decide (i = 0)) 2 (by decide) (by decide)⟩

/-! ### CSV reading and writing

The CSV layer is modelled at row level: a file is a list of rows, each row a
list of string cells (the claims concern the header schema and the row
contents, not the textual framing of the CSV format). -/

/-- `CSV_COLUMNS`. -/
def CSV_COLUMNS : List String :=
  ["Product_Name", "Length", "Width", "Height", "Quantity"]

/-- A parsed data row `(Product_Name, Length, Width, Height, Quantity)`. -/
abbrev CsvRow := String × Nat × Nat × Nat × Nat

/-- The item described by a row (`x_len`, `y_len`, `z_len` columns). -/
def rowItem (r : CsvRow) : Item :=
  { x_len := r.2.1, y_len := r.2.2.1, z_len := r.2.2.2.1 }

/-- The quantity column of a row. -/
def rowQty (r : CsvRow) : Nat := r.2.2.2.2

/-- One data row of `_read_csv`: `(row[0], int(row[1]), ..., int(row[4]))`;
a failing integer conversion is the `none` case. -/
def parseDataRow (row : List String) : Option CsvRow :=
  match (row.getD 1 "").toNat?, (row.getD 2 "").toNat?,
      (row.getD 3 "").toNat?, (row.getD 4 "").toNat? with
  | some a, some b, some c, some d => some (row.getD 0 "", a, b, c, d)
  | _, _, _, _ => none

/-- The data-row loop of `_read_csv`; a raised conversion error aborts the
whole read. -/
def parseDataRows : List (List String) → Except String (List CsvRow)
  | [] => Except.ok []
  | row :: rest =>
      match parseDataRow row with
      | some r =>
          match parseDataRows rest with
          | Except.ok rs => Except.ok (r :: rs)
          | Except.error e => Except.error e
      | none => Except.error "invalid literal for int() with base 10"

/-- `CSVInstanceGenerator._read_csv`: the first row must have exactly the
five expected column names in order; the remaining rows are parsed into
typed tuples.  The two header failures raise distinct `ValueError`s. -/
def readCsv : List (List String) → Except String (List CsvRow)
  | [] => Except.ok []
  | header :: rest =>
      if header.length ≠ CSV_COLUMNS.length then
        Except.error ("Got wrong number of columns, expected: " ++
          String.intercalate ", " CSV_COLUMNS)
      else if header ≠ CSV_COLUMNS then
        Except.error "Columns in wrong order"
      else parseDataRows rest

/-- `CSVInstanceGenerator._generate_list_of_items`: flatten the rows so that
a row of quantity `q` contributes `q` identical items. -/
def generateListOfItems (rows : List CsvRow) : List Item :=
  (rows.map (fun r => List.replicate (rowQty r) (rowItem r))).flatten

/-- The item-construction part of `CSVInstanceGenerator.__call__`: read the
file, then expand the rows; a read failure propagates before any item is
constructed. -/
def csvGenerateItems (file : List (List String)) : Except String (List Item) :=
  match readCsv file with
  | Except.ok rows => Except.ok (generateListOfItems rows)
  | Except.error e => Except.error e

/-- The extent triple of an item. -/
def itemTriple (it : Item) : Nat × Nat × Nat := (it.x_len, it.y_len, it.z_len)

/-- The triples kept by `save_instance_to_csv`: positions whose mask is set
and whose three extents are positive. -/
def savedTriples (st : BPState) : List (Nat × Nat × Nat) :=
  ((List.range st.max_items).filter
    (fun i => st.items_mask i && decide (0 < (st.items i).x_len) &&
      decide (0 < (st.items i).y_len) && decide (0 < (st.items i).z_len))).map
    (fun i => itemTriple (st.items i))

/-- The triples of all masked-true items of a state. -/
def maskedTriples (st : BPState) : List (Nat × Nat × Nat) :=
  ((List.range st.max_items).filter (fun i => st.items_mask i)).map
    (fun i => itemTriple (st.items i))

/-- First occurrence of each value, in order — the key order of
`collections.Counter` built from a list. -/
def firstDedup {α : Type} [BEq α] : List α → List α
  | [] => []
  | a :: l => a :: firstDedup (l.filter (fun b => ! (b == a)))
termination_by l => l.length
decreasing_by
  simp only [List.length_cons]
  exact Nat.lt_succ_of_le (List.length_filter_le _ _)

/-- `list(collections.Counter(l).items())`: each distinct value, in first
occurrence order, with its multiplicity. -/
def groupedItems {α : Type} [BEq α] (l : List α) : List (α × Nat) :=
  (firstDedup l).map (fun a => (a, l.count a))

/-- `grouped_items.sort(key=operator.itemgetter(1), reverse=True)`: stable
sort by descending count. -/
def sortDescendingByCount {α : Type} (g : List (α × Nat)) : List (α × Nat) :=
  g.mergeSort (fun p q => decide (q.2 ≤ p.2))

/-- The rows emitted by `save_instance_to_csv`: grouped triples sorted by
descending count, named `shape_1, shape_2, …`. -/
def saveInstanceRows (st : BPState) : List CsvRow :=
  ((sortDescendingByCount (groupedItems (savedTriples st))).enum).map
    (fun p => ("shape_" ++ toString (p.1 + 1), p.2.1.1, p.2.1.2.1, p.2.1.2.2,
      p.2.2))

/-! ### Lemmas about `firstDedup` -/

theorem mem_firstDedup {α : Type} [BEq α] [LawfulBEq α] :
    ∀ (n : Nat) (l : List α), l.length ≤ n → ∀ b, (b ∈ firstDedup l ↔ b ∈ l) := by
  intro n
  induction n with
  | zero =>
      intro l hl b
      rw [List.length_eq_zero.mp (Nat.le_zero.mp hl)]
      simp [firstDedup]
  | succ m ih =>
      intro l hl b
      cases l with
      | nil => simp [firstDedup]
      | cons a t =>
          simp only [firstDedup, List.mem_cons]
          constructor
          · rintro (hba | hmem)
            · exact Or.inl hba
            · have hlen : (t.filter (fun b => ! (b == a))).length ≤ m := by
                have := List.length_filter_le (fun b => ! (b == a)) t
                simp only [List.length_cons] at hl
                omega
              have hbt := (ih _ hlen b).mp hmem
              exact Or.inr (List.mem_filter.mp hbt).1
          · rintro (hba | hmem)
            · exact Or.inl hba
            · rcases Bool.eq_false_or_eq_true (b == a) with hba | hba
              · exact Or.inl (eq_of_beq hba)
              · have hlen : (t.filter (fun b => ! (b == a))).length ≤ m := by
                  have := List.length_filter_le (fun b => ! (b == a)) t
                  simp only [List.length_cons] at hl
                  omega
                refine Or.inr ((ih _ hlen b).mpr ?_)
                exact List.mem_filter.mpr ⟨hmem, by simp [hba]⟩

theorem nodup_firstDedup {α : Type} [BEq α] [LawfulBEq α] :
    ∀ (n : Nat) (l : List α), l.length ≤ n → (firstDedup l).Nodup := by
  intro n
  induction n with
  | zero =>
      intro l hl
      rw [List.length_eq_zero.mp (Nat.le_zero.mp hl)]
      simp only [firstDedup]
      exact List.nodup_nil
  | succ m ih =>
      intro l hl
      cases l with
      | nil =>
          simp only [firstDedup]
          exact List.nodup_nil
      | cons a t =>
          have hlen : (t.filter (fun b => ! (b == a))).length ≤ m := by
            have := List.length_filter_le (fun b => ! (b == a)) t
            simp only [List.length_cons] at hl
            omega
          simp only [firstDedup]
          refine List.nodup_cons.mpr ⟨?_, ih _ hlen⟩
          intro hmem
          have := (mem_firstDedup m _ hlen a).mp hmem
          have := (List.mem_filter.mp this).2
          simp at this

/-- Replicating each first occurrence by its multiplicity recovers the list
up to permutation. -/
theorem firstDedup_expand {α : Type} [BEq α] [LawfulBEq α] :
    ∀ (n : Nat) (l : List α), l.length ≤ n →
      ((firstDedup l).map (fun a => List.replicate (l.count a) a)).flatten.Perm
        l := by
  intro n
  induction n with
  | zero =>
      intro l hl
      rw [List.length_eq_zero.mp (Nat.le_zero.mp hl)]
      simp [firstDedup]
  | succ m ih =>
      intro l hl
      cases l with
      | nil => simp [firstDedup]
      | cons a t =>
          have hlen : (t.filter (fun b => ! (b == a))).length ≤ m := by
            have := List.length_filter_le (fun b => ! (b == a)) t
            simp only [List.length_cons] at hl
            omega
          simp only [firstDedup, List.map_cons, List.flatten_cons]
          have hca : (a :: t).count a = t.count a + 1 := by
            rw [List.count_cons]
            simp
          have hmapEq : (firstDedup (t.filter (fun b => ! (b == a)))).map
              (fun b => List.replicate ((a :: t).count b) b) =
              (firstDedup (t.filter (fun b => ! (b == a)))).map
              (fun b => List.replicate
                ((t.filter (fun b => ! (b == a))).count b) b) := by
            apply List.map_congr_left
            intro b hb
            have hbf := (mem_firstDedup m _ hlen b).mp hb
            have hbne : ¬ (b == a) = true := by
              have := (List.mem_filter.mp hbf).2
              simp at this
              simp [this]
            have h1 : (a :: t).count b = t.count b := by
              rw [List.count_cons]
              have : (a == b) = false := by
                rcases Bool.eq_false_or_eq_true (a == b) with h | h
                · exact absurd (by simp [eq_of_beq h]) hbne
                · exact h
              simp [this]
            have h2 : (t.filter (fun b => ! (b == a))).count b = t.count b :=
              List.count_filter (by simpa using hbne)
            rw [h1, h2]
          rw [hca, hmapEq]
          have hperm2 := ih _ hlen
          have hstep : (List.replicate (t.count a + 1) a ++
              ((firstDedup (t.filter (fun b => ! (b == a)))).map
                (fun b => List.replicate
                  ((t.filter (fun b => ! (b == a))).count b) b)).flatten).Perm
              (List.replicate (t.count a + 1) a ++
                t.filter (fun b => ! (b == a))) :=
            List.Perm.append_left _ hperm2
          refine hstep.trans ?_
          have hsplit : (t.filter (fun b => b == a) ++
              t.filter (fun b => ! (b == a))).Perm t :=
            List.filter_append_perm _ t
          have hbeq : t.filter (fun b => b == a) =
              List.replicate (t.count a) a := List.filter_beq t a
          rw [List.replicate_succ, List.cons_append]
          refine List.Perm.cons a ?_
          rw [← hbeq]
          exact hsplit

/-- The grouped-and-sorted shape list behind the emitted rows. -/
def savedGroups (st : BPState) : List ((Nat × Nat × Nat) × Nat) :=
  sortDescendingByCount (groupedItems (savedTriples st))

theorem saveInstanceRows_eq (st : BPState) :
    saveInstanceRows st = ((savedGroups st).enum).map
      (fun p => ("shape_" ++ toString (p.1 + 1), p.2.1.1, p.2.1.2.1, p.2.1.2.2,
        p.2.2)) := rfl

theorem savedGroups_perm (st : BPState) :
    (savedGroups st).Perm (groupedItems (savedTriples st)) :=
  List.mergeSort_perm _ _

theorem savedGroups_sorted (st : BPState) :
    List.Pairwise (fun p q : (Nat × Nat × Nat) × Nat => q.2 ≤ p.2)
      (savedGroups st) := by
  unfold savedGroups sortDescendingByCount
  have htrans : ∀ a b c : (Nat × Nat × Nat) × Nat,
      (fun p q : (Nat × Nat × Nat) × Nat => decide (q.2 ≤ p.2)) a b = true →
      (fun p q : (Nat × Nat × Nat) × Nat => decide (q.2 ≤ p.2)) b c = true →
      (fun p q : (Nat × Nat × Nat) × Nat => decide (q.2 ≤ p.2)) a c = true := by
    intro a b c hab hbc
    simp only [decide_eq_true_eq] at hab hbc ⊢
    omega
  have htotal : ∀ a b : (Nat × Nat × Nat) × Nat,
      ((fun p q : (Nat × Nat × Nat) × Nat => decide (q.2 ≤ p.2)) a b ||
        (fun p q : (Nat × Nat × Nat) × Nat => decide (q.2 ≤ p.2)) b a) = true := by
    intro a b
    rcases Nat.le_total b.2 a.2 with h | h <;> simp [h]
  have h := List.sorted_mergeSort htrans htotal (groupedItems (savedTriples st))
  refine List.Pairwise.imp ?_ h
  intro a b hab
  simpa using hab

theorem savedGroups_counts (st : BPState) :
    ∀ q ∈ savedGroups st, q.2 = (savedTriples st).count q.1 := by
  intro q hq
  have hg := (savedGroups_perm st).mem_iff.mp hq
  obtain ⟨a, _, hEq⟩ := List.mem_map.mp hg
  rw [← hEq]

theorem savedGroups_fst_nodup (st : BPState) :
    ((savedGroups st).map Prod.fst).Nodup := by
  have hperm : ((savedGroups st).map Prod.fst).Perm
      ((groupedItems (savedTriples st)).map Prod.fst) :=
    (savedGroups_perm st).map _
  rw [hperm.nodup_iff]
  have hc : (groupedItems (savedTriples st)).map Prod.fst =
      firstDedup (savedTriples st) := by
    unfold groupedItems
    rw [List.map_map]
    exact (List.map_congr_left fun a _ => rfl).trans (List.map_id _)
  rw [hc]
  exact nodup_firstDedup (savedTriples st).length _ le_rfl

theorem savedTriples_eq_masked (st : BPState)
    (hpos : ∀ i, i < st.max_items → st.items_mask i = true →
      0 < (st.items i).x_len ∧ 0 < (st.items i).y_len ∧
        0 < (st.items i).z_len) :
    savedTriples st = maskedTriples st := by
  unfold savedTriples maskedTriples
  congr 1
  apply List.filter_congr
  intro i hi
  have hiN : i < st.max_items := List.mem_range.mp hi
  by_cases hm : st.items_mask i = true
  · obtain ⟨h1, h2, h3⟩ := hpos i hiN hm
    simp [hm, h1, h2, h3]
  · have hm2 : st.items_mask i = false := Bool.eq_false_iff.mpr hm
    simp [hm2]

/-- C7: save-then-read round trip at the row level.  For every state whose
masked items all have three positive extents: expanding the emitted rows by
their quantities yields the masked extent triples up to permutation; the
quantities sum to the number of masked items; the rows carry pairwise
distinct triples (grouping), each with the exact multiplicity of its triple;
the quantity column is non-increasing down the file; and the `i`-th row is
named `shape_(i+1)`. -/
theorem claim_C7 (st : BPState)
    (hpos : ∀ i, i < st.max_items → st.items_mask i = true →
      0 < (st.items i).x_len ∧ 0 < (st.items i).y_len ∧
        0 < (st.items i).z_len) :
    ((generateListOfItems (saveInstanceRows st)).map itemTriple).Perm
      (maskedTriples st) ∧
    ((saveInstanceRows st).map rowQty).sum = (maskedTriples st).length ∧
    ((saveInstanceRows st).map (fun r => itemTriple (rowItem r))).Nodup ∧
    List.Pairwise (fun r1 r2 => rowQty r2 ≤ rowQty r1) (saveInstanceRows st) ∧
    (∀ r ∈ saveInstanceRows st,
      rowQty r = (maskedTriples st).count (itemTriple (rowItem r))) ∧
    (∀ p, p < (saveInstanceRows st).length →
      ((saveInstanceRows st).getD p ("", 0, 0, 0, 0)).1 =
        "shape_" ++ toString (p + 1)) := by
  have hLM : savedTriples st = maskedTriples st := savedTriples_eq_masked st hpos
  have hrowsEq : ∀ {β : Type} (f : CsvRow → β)
      (f2 : (Nat × Nat × Nat) × Nat → β),
      (∀ (i : Nat) (q : (Nat × Nat × Nat) × Nat),
        f ("shape_" ++ toString (i + 1), q.1.1, q.1.2.1, q.1.2.2, q.2) = f2 q) →
      (saveInstanceRows st).map f = (savedGroups st).map f2 := by
    intro β f f2 hf
    rw [saveInstanceRows_eq, List.map_map]
    have h2 : (f ∘ fun p : Nat × ((Nat × Nat × Nat) × Nat) =>
        ("shape_" ++ toString (p.1 + 1), p.2.1.1, p.2.1.2.1, p.2.1.2.2,
          p.2.2)) = f2 ∘ Prod.snd := by
      funext p
      obtain ⟨i, ⟨⟨x, y, z⟩, c⟩⟩ := p
      exact hf i ⟨⟨x, y, z⟩, c⟩
    rw [h2, ← List.map_map, List.enum_map_snd]
  have hff2 : ∀ (i : Nat) (q : (Nat × Nat × Nat) × Nat),
      (List.map itemTriple ∘ fun r : CsvRow =>
        List.replicate (rowQty r) (rowItem r))
        ("shape_" ++ toString (i + 1), q.1.1, q.1.2.1, q.1.2.2, q.2) =
      List.replicate q.2 q.1 := by
    intro i q
    obtain ⟨⟨x, y, z⟩, c⟩ := q
    simp [rowQty, rowItem, itemTriple, List.map_replicate]
  have h1 : (generateListOfItems (saveInstanceRows st)).map itemTriple =
      ((savedGroups st).map (fun q => List.replicate q.2 q.1)).flatten := by
    unfold generateListOfItems
    rw [List.map_flatten, List.map_map]
    rw [hrowsEq (List.map itemTriple ∘ fun r : CsvRow =>
      List.replicate (rowQty r) (rowItem r))
      (fun q => List.replicate q.2 q.1) hff2]
  have hperm1 : (((savedGroups st).map
      (fun q => List.replicate q.2 q.1)).flatten).Perm (savedTriples st) := by
    have hp1 : ((savedGroups st).map (fun q => List.replicate q.2 q.1)).Perm
        ((groupedItems (savedTriples st)).map
          (fun q => List.replicate q.2 q.1)) :=
      (savedGroups_perm st).map _
    refine hp1.flatten.trans ?_
    have heq : (groupedItems (savedTriples st)).map
        (fun q => List.replicate q.2 q.1) =
        (firstDedup (savedTriples st)).map
          (fun a => List.replicate ((savedTriples st).count a) a) := by
      unfold groupedItems
      rw [List.map_map]
      exact List.map_congr_left fun a _ => rfl
    rw [heq]
    exact firstDedup_expand (savedTriples st).length _ le_rfl
  have h1perm : ((generateListOfItems (saveInstanceRows st)).map
      itemTriple).Perm (maskedTriples st) := by
    rw [h1, ← hLM]
    exact hperm1
  have hlenRows : (saveInstanceRows st).length = (savedGroups st).length := by
    rw [saveInstanceRows_eq, List.length_map, List.enum_length]
  refine ⟨h1perm, ?_, ?_, ?_, ?_, ?_⟩
  · have hlen := h1perm.length_eq
    rw [List.length_map] at hlen
    unfold generateListOfItems at hlen
    rw [List.length_flatten, List.map_map] at hlen
    have hc : (List.length ∘ fun r : CsvRow =>
        List.replicate (rowQty r) (rowItem r)) = rowQty := by
      funext r
      simp [List.length_replicate]
    rw [hc] at hlen
    exact hlen
  · have h3eq : (saveInstanceRows st).map (fun r => itemTriple (rowItem r)) =
        (savedGroups st).map Prod.fst := by
      refine hrowsEq _ _ ?_
      intro i q
      obtain ⟨⟨x, y, z⟩, c⟩ := q
      rfl
    rw [h3eq]
    exact savedGroups_fst_nodup st
  · rw [List.pairwise_iff_getElem]
    intro i j hi hj hij
    have hq : ∀ (k : Nat) (hk : k < (saveInstanceRows st).length),
        rowQty ((saveInstanceRows st)[k]) =
          ((savedGroups st).get ⟨k, hlenRows ▸ hk⟩).2 := by
      intro k hk
      simp only [saveInstanceRows_eq, List.getElem_map, List.getElem_enum,
        rowQty]
      rfl
    rw [hq i hi, hq j hj]
    exact List.pairwise_iff_getElem.mp (savedGroups_sorted st) i j
      (hlenRows ▸ hi) (hlenRows ▸ hj) hij
  · intro r hr
    rw [saveInstanceRows_eq] at hr
    obtain ⟨p, hp, hfp⟩ := List.mem_map.mp hr
    obtain ⟨i, q⟩ := p
    have hiq := List.mem_enum hp
    have hqmem : q ∈ savedGroups st := by
      rw [hiq.2]
      exact List.getElem_mem _
    have hcount := savedGroups_counts st q hqmem
    obtain ⟨⟨x, y, z⟩, c⟩ := q
    rw [← hfp]
    show c = (maskedTriples st).count (x, y, z)
    rw [← hLM]
    exact hcount
  · intro p hp
    rw [List.getD_eq_getElem _ _ hp]
    simp only [saveInstanceRows_eq, List.getElem_map, List.getElem_enum]

/-- C7 witness: the round trip at the concrete single-item solved state. -/
theorem claim_C7_witness :
    (∀ i, i < solvedExample.max_items → solvedExample.items_mask i = true →
      0 < (solvedExample.items i).x_len ∧ 0 < (solvedExample.items i).y_len ∧
        0 < (solvedExample.items i).z_len) ∧
    ((saveInstanceRows solvedExample).map rowQty).sum =
      (maskedTriples solvedExample).length :=
  ⟨by decide, (claim_C7 solvedExample (by decide)).2.1⟩

/-- C8: a header row with a column count other than 5 is rejected with the
column-count error; a 5-column header that is not exactly
`Product_Name,Length,Width,Height,Quantity` is rejected with the
column-order error; the two error messages are distinct; an exact header is
not rejected by the header check (reading proceeds to the data rows); and a
read failure propagates before any item is constructed. -/
theorem claim_C8 :
    (∀ (header : List String) (rest : List (List String)),
      header.length ≠ 5 →
      readCsv (header :: rest) = Except.error
        "Got wrong number of columns, expected: Product_Name, Length, Width, Height, Quantity") ∧
    (∀ (header : List String) (rest : List (List String)),
      header.length = 5 → header ≠ CSV_COLUMNS →
      readCsv (header :: rest) = Except.error "Columns in wrong order") ∧
    ("Got wrong number of columns, expected: Product_Name, Length, Width, Height, Quantity" ≠
      "Columns in wrong order") ∧
    (∀ rest, readCsv (CSV_COLUMNS :: rest) = parseDataRows rest) ∧
    (∀ file e, readCsv file = Except.error e →
      csvGenerateItems file = Except.error e) := by
  refine ⟨?_, ?_, by decide, ?_, ?_⟩
  · intro header rest hlen
    simp only [readCsv]
    rw [if_pos (fun hcon : header.length = CSV_COLUMNS.length =>
      hlen (hcon.trans rfl))]
    congr 1
  · intro header rest hlen hne
    simp only [readCsv]
    rw [if_neg (fun hcon : header.length ≠ CSV_COLUMNS.length =>
      hcon (hlen.trans rfl)), if_pos hne]
  · intro rest
    simp only [readCsv]
    rw [if_neg (fun hcon : CSV_COLUMNS.length ≠ CSV_COLUMNS.length => hcon rfl),
      if_neg (fun hcon : CSV_COLUMNS ≠ CSV_COLUMNS => hcon rfl)]
  · intro file e h
    unfold csvGenerateItems
    rw [h]

/-- C8 witness: a three-column header is rejected with the column-count
error. -/
theorem claim_C8_witness :
    (["Product_Name", "Length", "Width"] : List String).length ≠ 5 ∧
    readCsv [["Product_Name", "Length", "Width"]] = Except.error
      "Got wrong number of columns, expected: Product_Name, Length, Width, Height, Quantity" :=
  ⟨by decide, claim_C8.1 ["Product_Name", "Length", "Width"] [] (by decide)⟩
